import Mathlib

/-!
# tcp-pow: message codec, hashcash proof of work and the server's request handler

A shallow embedding of `internal/pkg/protocol/protocol.go`, `internal/pkg/pow/pow.go`
and `internal/server/server.go`.

Conventions of the embedding

* A Go `string` is a sequence of bytes: `GoString := List (Fin 256)`.
* Go `int` and `int64` are 64-bit two's complement. They are embedded as `Int`; every
  arithmetic result that Go stores back in a machine integer goes through `wrapInt64`.
* A runtime panic is the value `Run.panicked`; a loop that may run for ever takes a fuel
  argument and answers `none` when the fuel is used up.
* Functions of the Go standard library (`strings`, `strconv`, `fmt`, `unicode/utf8`,
  `crypto/sha1`, `encoding/base64`) are embedded from their documented behaviour.
  `encoding/json`, the clock, the uuid generator and the random generator are inputs.
-/

set_option maxRecDepth 100000

namespace TcpPow

/-! ## Strings and machine integers -/

/-- A Go string: an immutable sequence of bytes. -/
abbrev GoString := List (Fin 256)

/-- The bytes of an ASCII literal. -/
def ascii (s : String) : GoString := s.toList.map (fun c => Fin.ofNat c.toNat)

/-- Smallest value of a 64-bit `int`. -/
def minInt64 : Int := -9223372036854775808

/-- Largest value of a 64-bit `int`. -/
def maxInt64 : Int := 9223372036854775807

/-- The values a Go `int` / `int64` can hold. -/
def isInt64 (x : Int) : Prop := minInt64 ≤ x ∧ x ≤ maxInt64

instance (x : Int) : Decidable (isInt64 x) := by
  unfold isInt64; exact inferInstance

/-- Two's complement wrap-around of an arithmetic result to 64 bits. -/
def wrapInt64 (x : Int) : Int := (x + 9223372036854775808) % 18446744073709551616 - 9223372036854775808

/-- Outcome of running Go code that may panic at run time. -/
inductive Run (α : Type) where
  | done (a : α)
  | panicked
deriving DecidableEq, Repr

/-! ## fmt.Sprintf("%d") and strconv.Atoi -/

/-- The ASCII digit for a value below ten. -/
def digitByte (d : Nat) : Fin 256 := Fin.ofNat (48 + d % 10)

/-- Decimal digits of a natural number, most significant first (fuel bounds the number of digits). -/
def decDigits : Nat → Nat → GoString
  | 0, _ => []
  | fuel + 1, n => if n < 10 then [digitByte n] else decDigits fuel (n / 10) ++ [digitByte n]

/-- The verb `%d` applied to a natural number. -/
def formatNat (n : Nat) : GoString := decDigits (n + 1) n

/-- The verb `%d` of `fmt.Sprintf` applied to an integer. -/
def formatInt (x : Int) : GoString :=
  if x < 0 then 45 :: formatNat x.natAbs else formatNat x.natAbs

/-- Value of a run of ASCII digits read left to right, starting from the accumulator;
`none` when a byte is not a digit. -/
def parseDigits : GoString → Nat → Option Nat
  | [], acc => some acc
  | c :: rest, acc =>
    if 48 ≤ c.val ∧ c.val ≤ 57 then parseDigits rest (acc * 10 + (c.val - 48)) else none

/-- The function `strconv.Atoi`: an optional sign, at least one decimal digit, nothing else, and a
value that fits a 64-bit `int`. `none` stands for any error (syntax or range). -/
def Atoi (s : GoString) : Option Int :=
  match s with
  | [] => none
  | c :: rest =>
    let neg : Bool := c.val = 45
    let digits : GoString := if c.val = 45 ∨ c.val = 43 then rest else s
    match digits with
    | [] => none
    | _ :: _ =>
      match parseDigits digits 0 with
      | none => none
      | some n =>
        let v : Int := if neg then -(n : Int) else (n : Int)
        if isInt64 v then some v else none

/-! ## strings.TrimSpace and strings.Split -/

/-- UTF-8 encodings of the code points with the Unicode White_Space property, the set tested by
`unicode.IsSpace`: U+0009..U+000D, U+0020, U+0085, U+00A0, U+1680, U+2000..U+200A, U+2028,
U+2029, U+202F, U+205F, U+3000. -/
def unicodeSpaces : List GoString :=
  [[9], [10], [11], [12], [13], [32], [194, 133], [194, 160], [225, 154, 128],
   [226, 128, 128], [226, 128, 129], [226, 128, 130], [226, 128, 131], [226, 128, 132],
   [226, 128, 133], [226, 128, 134], [226, 128, 135], [226, 128, 136], [226, 128, 137],
   [226, 128, 138], [226, 128, 168], [226, 128, 169], [226, 128, 175], [226, 129, 159],
   [227, 128, 128]]

/-- Remove one leading occurrence of one of the given byte sequences, if there is one. -/
def stripOne : List GoString → GoString → Option GoString
  | [], _ => none
  | e :: es, s => if e.isPrefixOf s then some (s.drop e.length) else stripOne es s

/-- Remove leading occurrences of the given byte sequences until none is left. -/
def stripLeading (encs : List GoString) : Nat → GoString → GoString
  | 0, s => s
  | fuel + 1, s =>
    match stripOne encs s with
    | none => s
    | some r => stripLeading encs fuel r

/-- Leading white space removed. -/
def trimLeft (s : GoString) : GoString := stripLeading unicodeSpaces s.length s

/-- Trailing white space removed. -/
def trimRight (s : GoString) : GoString :=
  (stripLeading (unicodeSpaces.map List.reverse) s.length s.reverse).reverse

/-- The function `strings.TrimSpace`: all leading and trailing white space removed. -/
def TrimSpace (s : GoString) : GoString := trimRight (trimLeft s)

/-- The string ends with a white-space character, one that `strings.TrimSpace` removes. -/
def endsWithSpace (s : GoString) : Bool :=
  unicodeSpaces.any (fun e => e.reverse.isPrefixOf s.reverse)

/-- The function `strings.Split` for a one-byte separator: the substrings between the separators. -/
def Split (s : GoString) (sep : Fin 256) : List GoString :=
  match s with
  | [] => [[]]
  | c :: rest =>
    if c = sep then [] :: Split rest sep
    else
      match Split rest sep with
      | [] => [[c]]
      | p :: ps => (c :: p) :: ps

/-! ## internal/pkg/protocol/protocol.go -/

/-- Errors of the three packages. `errorf` is an error made of a text only (built with
`fmt.Errorf`, or received from a library or from the cache); `wrap` is `fmt.Errorf` with the verb
`%w` around another error. -/
inductive Error where
  | ErrInvalidHeader
  | ErrInvalidMessage
  | ErrMaxIterations
  | ErrQuit
  | ErrInvalidResource
  | ErrNotFoundChallenge
  | ErrExpiredChallenge
  | ErrInvalidHashcash
  | errorf (text : String)
  | wrap (text : String) (cause : Error)
deriving DecidableEq, Repr

/-- Header value 1. -/
def Quit : Int := 1

/-- Header value 2. -/
def RequestChallenge : Int := 2

/-- Header value 3. -/
def ResponseChallenge : Int := 3

/-- Header value 4. -/
def RequestResource : Int := 4

/-- Header value 5. -/
def ResponseResource : Int := 5

/-- The delimiter `|` between header and payload. -/
def splitter : Fin 256 := 124

/-- A protocol message. -/
structure Message where
  Header : Int
  Payload : GoString
deriving DecidableEq, Repr

/-- The method `Message.Stringify`: `fmt.Sprintf("%d%s%s", m.Header, splitter, m.Payload)`. -/
def Message.Stringify (m : Message) : GoString :=
  formatInt m.Header ++ [splitter] ++ m.Payload

/-- The function `ParseMessage`. The result is the Go pair `(*Message, error)`. -/
def ParseMessage (str : GoString) : Option Message × Option Error :=
  let str := TrimSpace str
  let parts := Split str splitter
  if parts.length < 1 ∨ parts.length > 2 then (none, some Error.ErrInvalidMessage)
  else
    match Atoi (parts.headD []) with
    | none => (none, some Error.ErrInvalidHeader)
    | some msgType =>
      let msg : Message := { Header := msgType, Payload := [] }
      if parts.length = 2 then (some { msg with Payload := parts.getD 1 [] }, none)
      else (some msg, none)

/-! ## unicode/utf8, crypto/sha1, encoding/base64 -/

/-- The code point U+FFFD that stands for an invalid encoding. -/
def RuneError : Nat := 65533

/-- Smallest second byte accepted after the first byte `s0` of a multi-byte encoding. -/
def acceptLo (s0 : Nat) : Nat := if s0 = 224 then 160 else if s0 = 240 then 144 else 128

/-- Largest second byte accepted after the first byte `s0` of a multi-byte encoding. -/
def acceptHi (s0 : Nat) : Nat := if s0 = 237 then 159 else if s0 = 244 then 143 else 191

/-- The function `utf8.DecodeRuneInString`: the first code point of the string and its width in
bytes; `(RuneError, 1)` for an invalid or truncated encoding, `(RuneError, 0)` for the empty
string. The bit operations of the library are written arithmetically. -/
def DecodeRuneInString (s : GoString) : Nat × Nat :=
  match s with
  | [] => (RuneError, 0)
  | s0 :: t =>
    if s0.val < 128 then (s0.val, 1)
    else if s0.val < 194 ∨ 244 < s0.val then (RuneError, 1)
    else if s0.val < 224 then
      match t with
      | s1 :: _ =>
        if 128 ≤ s1.val ∧ s1.val ≤ 191 then (s0.val % 32 * 64 + s1.val % 64, 2) else (RuneError, 1)
      | [] => (RuneError, 1)
    else if s0.val < 240 then
      match t with
      | s1 :: s2 :: _ =>
        if acceptLo s0.val ≤ s1.val ∧ s1.val ≤ acceptHi s0.val ∧ 128 ≤ s2.val ∧ s2.val ≤ 191 then
          (s0.val % 16 * 4096 + s1.val % 64 * 64 + s2.val % 64, 3)
        else (RuneError, 1)
      | _ => (RuneError, 1)
    else
      match t with
      | s1 :: s2 :: s3 :: _ =>
        if acceptLo s0.val ≤ s1.val ∧ s1.val ≤ acceptHi s0.val ∧ 128 ≤ s2.val ∧ s2.val ≤ 191 ∧
            128 ≤ s3.val ∧ s3.val ≤ 191 then
          (s0.val % 8 * 262144 + s1.val % 64 * 4096 + s2.val % 64 * 64 + s3.val % 64, 4)
        else (RuneError, 1)
      | _ => (RuneError, 1)

/-- Rotation of a 32-bit word to the left. -/
def rotl32 (x k : Nat) : Nat := ((x <<< k) ||| (x >>> (32 - k))) % 4294967296

/-- The last `k` bytes of the big-endian representation of `n`. -/
def beBytes (n : Nat) : Nat → List Nat
  | 0 => []
  | k + 1 => beBytes (n / 256) k ++ [n % 256]

/-- SHA-1 padding: the bit 1, zero bytes up to 56 modulo 64, the bit length on 8 bytes. -/
def sha1Pad (msg : List Nat) : List Nat :=
  msg ++ [128] ++ List.replicate ((119 - msg.length % 64) % 64) 0 ++ beBytes (8 * msg.length) 8

/-- The first `k` big-endian 32-bit words of a block. -/
def blockWords : Nat → List Nat → List Nat
  | 0, _ => []
  | k + 1, a :: b :: c :: d :: rest => (((a * 256 + b) * 256 + c) * 256 + d) :: blockWords k rest
  | _ + 1, _ => []

/-- Extension of the message schedule by `k` words; the list holds the newest word first. -/
def schedule : Nat → List Nat → List Nat
  | 0, w => w
  | k + 1, w =>
    match w with
    | _ :: _ :: w3 :: _ :: _ :: _ :: _ :: w8 :: _ :: _ :: _ :: _ :: _ :: w14 :: _ :: w16 :: _ =>
      schedule k (rotl32 (w3 ^^^ w8 ^^^ w14 ^^^ w16) 1 :: w)
    | _ => w

/-- The five chaining words of SHA-1. -/
structure Sha1State where
  a : Nat
  b : Nat
  c : Nat
  d : Nat
  e : Nat
deriving DecidableEq, Repr

/-- The round function and the round constant of round `i`. -/
def roundFK (i b c d : Nat) : Nat × Nat :=
  if i < 20 then ((b &&& c) ||| ((b ^^^ 4294967295) &&& d), 1518500249)
  else if i < 40 then (b ^^^ c ^^^ d, 1859775393)
  else if i < 60 then ((b &&& c) ||| (b &&& d) ||| (c &&& d), 2400959708)
  else (b ^^^ c ^^^ d, 3395469782)

/-- The rounds of the compression function over the schedule words, from round `i` on. -/
def rounds : List Nat → Nat → Sha1State → Sha1State
  | [], _, s => s
  | w :: ws, i, s =>
    let fk := roundFK i s.b s.c s.d
    let t := (rotl32 s.a 5 + fk.1 + s.e + w + fk.2) % 4294967296
    rounds ws (i + 1) ⟨t, s.a, rotl32 s.b 30, s.c, s.d⟩

/-- The compression function on one 64-byte block. -/
def compress (h : Sha1State) (block : List Nat) : Sha1State :=
  let w := (schedule 64 (blockWords 16 block).reverse).reverse
  let r := rounds w 0 h
  ⟨(h.a + r.a) % 4294967296, (h.b + r.b) % 4294967296, (h.c + r.c) % 4294967296,
    (h.d + r.d) % 4294967296, (h.e + r.e) % 4294967296⟩

/-- The compression function folded over `k` blocks. -/
def blocks : Nat → Sha1State → List Nat → Sha1State
  | 0, h, _ => h
  | k + 1, h, bs => blocks k (compress h (bs.take 64)) (bs.drop 64)

/-- The 20 bytes of the SHA-1 digest (FIPS 180-4), the value of `sha1.New().Write(data).Sum(nil)`. -/
def sha1Sum (data : GoString) : List Nat :=
  let p := sha1Pad (data.map Fin.val)
  let s := blocks (p.length / 64) ⟨1732584193, 4023233417, 2562383102, 271733878, 3285377520⟩ p
  beBytes s.a 4 ++ beBytes s.b 4 ++ beBytes s.c 4 ++ beBytes s.d 4 ++ beBytes s.e 4

/-- Lower-case hexadecimal digit of a value below sixteen. -/
def hexDigit (n : Nat) : Fin 256 := if n % 16 < 10 then Fin.ofNat (48 + n % 16) else Fin.ofNat (87 + n % 16)

/-- The verb `%x` applied to a byte slice: two lower-case hexadecimal digits per byte. -/
def formatHex : List Nat → GoString
  | [] => []
  | b :: bs => hexDigit (b / 16) :: hexDigit b :: formatHex bs

/-- Character of the standard base64 alphabet for a 6-bit value. -/
def b64Char (n : Nat) : Fin 256 :=
  if n < 26 then Fin.ofNat (65 + n)
  else if n < 52 then Fin.ofNat (71 + n)
  else if n < 62 then Fin.ofNat (n - 4)
  else if n = 62 then 43
  else 47

/-- The 6-bit value of a character of the standard base64 alphabet. -/
def b64Value (c : Fin 256) : Option Nat :=
  if 65 ≤ c.val ∧ c.val ≤ 90 then some (c.val - 65)
  else if 97 ≤ c.val ∧ c.val ≤ 122 then some (c.val - 71)
  else if 48 ≤ c.val ∧ c.val ≤ 57 then some (c.val + 4)
  else if c.val = 43 then some 62
  else if c.val = 47 then some 63
  else none

/-- The function `base64.StdEncoding.EncodeToString`: three bytes give four characters, the last
group is padded with `=`. -/
def EncodeToString : GoString → GoString
  | [] => []
  | [a] => [b64Char (a.val / 4), b64Char (a.val % 4 * 16), 61, 61]
  | [a, b] => [b64Char (a.val / 4), b64Char (a.val % 4 * 16 + b.val / 16), b64Char (b.val % 16 * 4), 61]
  | a :: b :: c :: rest =>
    b64Char (a.val / 4) :: b64Char (a.val % 4 * 16 + b.val / 16) ::
      b64Char (b.val % 16 * 4 + c.val / 64) :: b64Char (c.val % 64) :: EncodeToString rest

/-- Decoding of the groups of four characters; padding is accepted in the last group only. -/
def decodeQuanta : GoString → Option GoString
  | [] => some []
  | [a, b, c, d] =>
    match b64Value a, b64Value b with
    | some x, some y =>
      if c.val = 61 then
        if d.val = 61 then some [Fin.ofNat (x * 4 + y / 16)] else none
      else
        match b64Value c with
        | none => none
        | some z =>
          if d.val = 61 then some [Fin.ofNat (x * 4 + y / 16), Fin.ofNat (y % 16 * 16 + z / 4)]
          else
            match b64Value d with
            | none => none
            | some w =>
              some [Fin.ofNat (x * 4 + y / 16), Fin.ofNat (y % 16 * 16 + z / 4), Fin.ofNat (z % 4 * 64 + w)]
    | _, _ => none
  | a :: b :: c :: d :: rest =>
    match b64Value a, b64Value b, b64Value c, b64Value d, decodeQuanta rest with
    | some x, some y, some z, some w, some out =>
      some (Fin.ofNat (x * 4 + y / 16) :: Fin.ofNat (y % 16 * 16 + z / 4) :: Fin.ofNat (z % 4 * 64 + w) :: out)
    | _, _, _, _, _ => none
  | _ => none

/-- The function `base64.StdEncoding.DecodeString`: carriage returns and line feeds are ignored,
then the groups are decoded; `none` stands for `CorruptInputError`. -/
def DecodeString (s : GoString) : Option GoString :=
  decodeQuanta (s.filter (fun c => c.val ≠ 10 ∧ c.val ≠ 13))

/-! ## internal/pkg/pow/pow.go -/

/-- The constant `DefaultVersion`. -/
def DefaultVersion : Int := 1

/-- The constant `DefaultCounter`. -/
def DefaultCounter : Int := 0

/-- The constant `zeroByte`, the ASCII character `0`. -/
def zeroByte : Nat := 48

/-- The struct `HashcashData`. -/
structure HashcashData where
  Version : Int
  ZerosCount : Int
  Date : Int
  Resource : GoString
  Rand : GoString
  Counter : Int
deriving DecidableEq, Repr

/-- The function `NewHashcash`; `now` is the value of `time.Now().Unix()`. -/
def NewHashcash (now : Int) (zeroCount : Int) (clientInfo : GoString) (uid : GoString) : HashcashData :=
  { Version := DefaultVersion
    ZerosCount := zeroCount
    Date := now
    Resource := clientInfo
    Rand := EncodeToString uid
    Counter := DefaultCounter }

/-- The method `HashcashData.Stringify`: `fmt.Sprintf("%d:%d:%d:%s::%s:%d", ...)`. -/
def HashcashData.Stringify (h : HashcashData) : GoString :=
  formatInt h.Version ++ [58] ++ formatInt h.ZerosCount ++ [58] ++ formatInt h.Date ++ [58] ++
    h.Resource ++ [58, 58] ++ h.Rand ++ [58] ++ formatInt h.Counter

/-- The function `sha1Hash`: the SHA-1 digest printed with `%x`. -/
def sha1Hash (data : GoString) : GoString := formatHex (sha1Sum data)

/-- The loop `for _, ch := range s { if ch != zeroByte { return false } }; return true` of
`IsHashCorrect`: the code points of `s` are decoded one after the other. -/
def rangeAllZero : Nat → GoString → Bool
  | 0, _ => true
  | fuel + 1, s =>
    match s with
    | [] => true
    | _ :: _ =>
      let rw := DecodeRuneInString s
      if rw.1 ≠ zeroByte then false else rangeAllZero fuel (s.drop rw.2)

/-- The function `IsHashCorrect`. The slice expression `hash[:zerosCount]` panics when
`zerosCount` is negative. -/
def IsHashCorrect (hash : GoString) (zerosCount : Int) : Run Bool :=
  if zerosCount > (hash.length : Int) then Run.done false
  else if zerosCount < 0 then Run.panicked
  else Run.done (rangeAllZero zerosCount.toNat (hash.take zerosCount.toNat))

/-- The method `HashcashData.Verify`. -/
def HashcashData.Verify (h : HashcashData) : Run Bool :=
  let header := h.Stringify
  let hash := sha1Hash header
  IsHashCorrect hash h.ZerosCount

/-- The method `HashcashData.ComputeHashcash`. Each unit of fuel pays for one evaluation of the
loop condition; `none` means the loop was still running when the fuel ran out. The result is the
Go pair `(HashcashData, error)`. -/
def HashcashData.ComputeHashcash : Nat → HashcashData → Int → Option (Run (HashcashData × Option Error))
  | 0, _, _ => none
  | fuel + 1, h, maxIterations =>
    if h.Counter ≤ maxIterations ∨ maxIterations ≤ 0 then
      match h.Verify with
      | Run.panicked => some Run.panicked
      | Run.done true => some (Run.done (h, none))
      | Run.done false =>
        HashcashData.ComputeHashcash fuel { h with Counter := wrapInt64 (h.Counter + 1) } maxIterations
    else some (Run.done (h, some Error.ErrMaxIterations))

/-! ## internal/pkg/config, internal/pkg/db, internal/server/server.go -/

/-- The `Hashcash` section of the configuration. -/
structure Config where
  ZeroCount : Int
  Duration : Int
  MaxIterations : Int
deriving DecidableEq, Repr

/-- The interface `db.Cache` over a store of type `σ`: every method receives the store and returns
the store it leaves behind together with its Go results. The second argument of `Add` is the
expiration. -/
structure Cache (σ : Type) where
  Add : σ → GoString → Int → σ × Option Error
  Exist : σ → GoString → σ × (Bool × Option Error)
  Delete : σ → GoString → σ × Option Error

/-- The two functions of `encoding/json` used on `HashcashData`. -/
structure Json where
  Marshal : HashcashData → GoString × Option Error
  Unmarshal : GoString → HashcashData × Option Error

/-- The catalogue `quotes`. -/
def quotes : List GoString :=
  [ascii "Sniper here! Time for target practice.",
   ascii "Your mind is mine! Not like you were using it anyway.",
   ascii "There are some things you weren\x27t meant to see. Such as tomorrow.",
   ascii "Roshan!!! I come to reclaim what you stole!!",
   ascii "One Puck, two Puck, three Puck more!"]

/-- What one call of `processRequest` reads from outside: the clock `time.Now().Unix()`, the text
of `uuid.NewV4()` and the index drawn by `rand.Intn(len(quotes))`. -/
structure Env where
  now : Int
  uid : GoString
  randQuote : Fin 5

/-- The method `Server.processRequest`. The result is the Go pair `(*protocol.Message, error)`
and the store the call leaves behind; `none` means the call was still running when the fuel of
`ComputeHashcash` ran out. Logging is left out. -/
def processRequest {σ : Type} (fuel : Nat) (cfg : Config) (cache : Cache σ) (json : Json) (env : Env)
    (st : σ) (msgStr : GoString) (clientInfo : GoString) :
    Option (Run ((Option Message × Option Error) × σ)) :=
  match ParseMessage msgStr with
  | (_, some err) => some (Run.done ((none, some err), st))
  | (none, none) => some Run.panicked
  | (some msg, none) =>
    if msg.Header = Quit then some (Run.done ((none, some Error.ErrQuit), st))
    else if msg.Header = RequestChallenge then
      let id := env.uid
      match cache.Add st id cfg.Duration with
      | (st1, some err) =>
        some (Run.done ((none, some (Error.wrap "failed to add rand to cache" err)), st1))
      | (st1, none) =>
        let hashcash := NewHashcash env.now cfg.ZeroCount clientInfo id
        match json.Marshal hashcash with
        | (_, some _) => some (Run.done ((none, some (Error.errorf "failed to marshal hashcash")), st1))
        | (b, none) => some (Run.done ((some { Header := ResponseChallenge, Payload := b }, none), st1))
    else if msg.Header = RequestResource then
      match json.Unmarshal msg.Payload with
      | (_, some err) =>
        some (Run.done ((none, some (Error.wrap "failed to unmarshal hashcash" err)), st))
      | (hashcash, none) =>
        if hashcash.Resource ≠ clientInfo then some (Run.done ((none, some Error.ErrInvalidResource), st))
        else
          match DecodeString hashcash.Rand with
          | none =>
            some (Run.done ((none, some (Error.wrap "failed to decode rand" (Error.errorf "illegal base64 data"))), st))
          | some randValueBytes =>
            let uid := randValueBytes
            match cache.Exist st uid with
            | (st1, (_, some err)) =>
              some (Run.done ((none, some (Error.wrap "failed to get rand from cache" err)), st1))
            | (st1, (exists_, none)) =>
              if !exists_ then some (Run.done ((none, some Error.ErrNotFoundChallenge), st1))
              else if wrapInt64 (env.now - hashcash.Date) > cfg.Duration then
                some (Run.done ((none, some Error.ErrExpiredChallenge), st1))
              else
                let maxIter := hashcash.Counter
                if maxIter ≤ 0 then some (Run.done ((none, some Error.ErrInvalidHashcash), st1))
                else
                  match hashcash.ComputeHashcash fuel maxIter with
                  | none => none
                  | some Run.panicked => some Run.panicked
                  | some (Run.done (_, some _)) =>
                    some (Run.done ((none, some Error.ErrInvalidHashcash), st1))
                  | some (Run.done (_, none)) =>
                    let randQuote := env.randQuote
                    let st2 := (cache.Delete st1 uid).1
                    some (Run.done
                      ((some { Header := ResponseResource, Payload := quotes.getD randQuote.val [] }, none), st2))
    else some (Run.done ((none, some (Error.errorf "unknown header")), st))

/-- A store that is the list of its live keys: `Add` inserts, `Exist` tests membership, `Delete`
removes, and no method fails. -/
def listCache : Cache (List GoString) where
  Add := fun st key _ => (key :: st, none)
  Exist := fun st key => (st, (decide (key ∈ st), none))
  Delete := fun st key => (st.filter (fun k => k ≠ key), none)

/-- A stand-in for `encoding/json` on one payload: `text` is the JSON text of `record`. -/
def jsonOf (text : GoString) (record : HashcashData) : Json where
  Marshal := fun h => if h = record then (text, none) else ([], some (Error.errorf "unsupported value"))
  Unmarshal := fun p =>
    if p = text then (record, none) else ({ record with Counter := 0 }, some (Error.errorf "invalid character"))


/-! ## Concrete records used as test vectors -/

/-- The nonce of the tests, base64 encoded. -/
def testRand : GoString := ascii "ZjY3MmU1NjgtZGM0NS00MDlkLTlkNDctYTZkZjc2ZDU2MzNi"

/-- The nonce of the tests, the key under which the challenge is stored. -/
def testUid : GoString := ascii "f672e568-dc45-409d-9d47-a6df76d5633b"

/-- The solved record of `TestVerify`. -/
def solvedRecord : HashcashData :=
  { Version := 1, ZerosCount := 3, Date := 1657527541, Resource := ascii "localhost",
    Rand := testRand, Counter := 10855 }

/-- The JSON text of `solvedRecord`. -/
def solvedPayload : GoString :=
  ascii "\x7b\"Version\":1,\"ZerosCount\":3,\"Date\":1657527541,\"Resource\":\"localhost\",\"Rand\":\"ZjY3MmU1NjgtZGM0NS00MDlkLTlkNDctYTZkZjc2ZDU2MzNi\",\"Counter\":10855\x7d"

/-- A solved record whose Date is the smallest 64-bit integer. -/
def staleRecord : HashcashData :=
  { Version := 1, ZerosCount := 3, Date := -9223372036854775808, Resource := ascii "localhost",
    Rand := testRand, Counter := 5861 }

/-- The JSON text of `staleRecord`. -/
def stalePayload : GoString :=
  ascii "\x7b\"Version\":1,\"ZerosCount\":3,\"Date\":-9223372036854775808,\"Resource\":\"localhost\",\"Rand\":\"ZjY3MmU1NjgtZGM0NS00MDlkLTlkNDctYTZkZjc2ZDU2MzNi\",\"Counter\":5861\x7d"

/-- An unsolved record whose Counter is the largest 64-bit integer. -/
def maxCounterRecord : HashcashData :=
  { Version := 1, ZerosCount := 3, Date := 1657528752, Resource := ascii "localhost",
    Rand := testRand, Counter := 9223372036854775807 }

/-- The JSON text of `maxCounterRecord`. -/
def maxCounterPayload : GoString :=
  ascii "\x7b\"Version\":1,\"ZerosCount\":3,\"Date\":1657528752,\"Resource\":\"localhost\",\"Rand\":\"ZjY3MmU1NjgtZGM0NS00MDlkLTlkNDctYTZkZjc2ZDU2MzNi\",\"Counter\":9223372036854775807\x7d"

/-- A record that asks for 41 zeros, one more than a digest has characters, with the largest
Counter. -/
def unsolvableRecord : HashcashData :=
  { Version := 1, ZerosCount := 41, Date := 1657528752, Resource := ascii "localhost",
    Rand := testRand, Counter := 9223372036854775807 }

/-- The JSON text of `unsolvableRecord`. -/
def unsolvablePayload : GoString :=
  ascii "\x7b\"Version\":1,\"ZerosCount\":41,\"Date\":1657528752,\"Resource\":\"localhost\",\"Rand\":\"ZjY3MmU1NjgtZGM0NS00MDlkLTlkNDctYTZkZjc2ZDU2MzNi\",\"Counter\":9223372036854775807\x7d"

/-- The request line of a `RequestResource` message with the given payload. -/
def resourceRequest (payload : GoString) : GoString := ascii "4|" ++ payload ++ ascii "\n"

/-- The configuration of the examples: three zeros, 300 seconds, a million iterations. -/
def testConfig : Config := { ZeroCount := 3, Duration := 300, MaxIterations := 1000000 }

/-! ## The connection loop and further test vectors -/

/-- What one turn of the loop of `Server.handleConnection` writes to the connection for a result
of `processRequest`: nothing when the error is not nil or the message is nil (the connection is
closed), otherwise the line `msg.Stringify()` followed by a line feed (`sendMsg`). -/
def replyOf (result : Option Message × Option Error) : Option GoString :=
  match result with
  | (_, some _) => none
  | (none, none) => none
  | (some msg, none) => some (msg.Stringify ++ [10])

/-- What the peer receives for one call of `processRequest`: a call that panics or is still
running has written nothing. -/
def written {σ : Type} (outcome : Option (Run ((Option Message × Option Error) × σ))) : Option GoString :=
  match outcome with
  | some (Run.done (result, _)) => replyOf result
  | _ => none

/-- One request as the server meets it: the fuel for the proof check, what the call reads from
outside, the line read from the connection and the peer's address. -/
structure Request where
  fuel : Nat
  env : Env
  msgStr : GoString
  clientInfo : GoString

/-- The requests handled one after the other on the set-of-keys cache, each on the store the
previous one left; `none` when one of the calls does not return. -/
def serve (cfg : Config) (json : Json) : List GoString → List Request → Option (List GoString)
  | st, [] => some st
  | st, r :: rs =>
    match processRequest r.fuel cfg listCache json r.env st r.msgStr r.clientInfo with
    | some (Run.done (_, st1)) => serve cfg json st1 rs
    | _ => none

/-- A stand-in for `encoding/json` on a table of payloads: each text is the JSON text of the
record next to it. A failed `Unmarshal` leaves the zero value. -/
def jsonTable (table : List (GoString × HashcashData)) : Json where
  Marshal := fun h =>
    match table.find? (fun e => decide (e.2 = h)) with
    | some e => (e.1, none)
    | none => ([], some (Error.errorf "unsupported value"))
  Unmarshal := fun p =>
    match table.find? (fun e => decide (e.1 = p)) with
    | some e => (e.2, none)
    | none => (⟨0, 0, 0, [], [], 0⟩, some (Error.errorf "invalid character"))

/-- The request line of a `RequestChallenge` message. -/
def challengeRequest : GoString := ascii "2|\n"

/-- A record that declares difficulty 0, with Counter 1. -/
def easyRecord : HashcashData :=
  { Version := 1, ZerosCount := 0, Date := 1657527541, Resource := ascii "localhost",
    Rand := testRand, Counter := 1 }

/-- The JSON text of `easyRecord`. -/
def easyPayload : GoString :=
  ascii "\x7b\"Version\":1,\"ZerosCount\":0,\"Date\":1657527541,\"Resource\":\"localhost\",\"Rand\":\"ZjY3MmU1NjgtZGM0NS00MDlkLTlkNDctYTZkZjc2ZDU2MzNi\",\"Counter\":1\x7d"

/-- A record that declares the negative difficulty -1, with Counter 1. -/
def negativeRecord : HashcashData :=
  { Version := 1, ZerosCount := -1, Date := 1657527541, Resource := ascii "localhost",
    Rand := testRand, Counter := 1 }

/-- The JSON text of `negativeRecord`. -/
def negativePayload : GoString :=
  ascii "\x7b\"Version\":1,\"ZerosCount\":-1,\"Date\":1657527541,\"Resource\":\"localhost\",\"Rand\":\"ZjY3MmU1NjgtZGM0NS00MDlkLTlkNDctYTZkZjc2ZDU2MzNi\",\"Counter\":1\x7d"

/-- The configuration with difficulty 0. -/
def zeroConfig : Config := { ZeroCount := 0, Duration := 300, MaxIterations := 1000000 }

/-- The record issued under `zeroConfig` at time 1657527541 for `localhost`. -/
def zeroIssued : HashcashData :=
  { Version := 1, ZerosCount := 0, Date := 1657527541, Resource := ascii "localhost",
    Rand := testRand, Counter := 0 }

/-- The JSON text of `zeroIssued`. -/
def zeroIssuedPayload : GoString :=
  ascii "\x7b\"Version\":1,\"ZerosCount\":0,\"Date\":1657527541,\"Resource\":\"localhost\",\"Rand\":\"ZjY3MmU1NjgtZGM0NS00MDlkLTlkNDctYTZkZjc2ZDU2MzNi\",\"Counter\":0\x7d"

/-- The record issued under `testConfig` at time 1657527741 for `localhost`. -/
def roundIssued : HashcashData :=
  { Version := 1, ZerosCount := 3, Date := 1657527741, Resource := ascii "localhost",
    Rand := testRand, Counter := 0 }

/-- The JSON text of `roundIssued`. -/
def roundIssuedPayload : GoString :=
  ascii "\x7b\"Version\":1,\"ZerosCount\":3,\"Date\":1657527741,\"Resource\":\"localhost\",\"Rand\":\"ZjY3MmU1NjgtZGM0NS00MDlkLTlkNDctYTZkZjc2ZDU2MzNi\",\"Counter\":0\x7d"

/-- The record `roundIssued` with its first solving counter, 3. -/
def roundSolved : HashcashData := { roundIssued with Counter := 3 }

/-- The JSON text of `roundSolved`. -/
def roundSolvedPayload : GoString :=
  ascii "\x7b\"Version\":1,\"ZerosCount\":3,\"Date\":1657527741,\"Resource\":\"localhost\",\"Rand\":\"ZjY3MmU1NjgtZGM0NS00MDlkLTlkNDctYTZkZjc2ZDU2MzNi\",\"Counter\":3\x7d"

/-- A second nonce. -/
def otherUid : GoString := ascii "0b5c1a52-7a0e-4c0e-9a63-2f1d3c4b5a69"

/-- The record issued under `testConfig` at time 1657527810 for another peer with `otherUid`. -/
def otherIssued : HashcashData :=
  { Version := 1, ZerosCount := 3, Date := 1657527810, Resource := ascii "10.0.0.7:40000",
    Rand := ascii "MGI1YzFhNTItN2EwZS00YzBlLTlhNjMtMmYxZDNjNGI1YTY5", Counter := 0 }

/-- The JSON text of `otherIssued`. -/
def otherIssuedPayload : GoString :=
  ascii "\x7b\"Version\":1,\"ZerosCount\":3,\"Date\":1657527810,\"Resource\":\"10.0.0.7:40000\",\"Rand\":\"MGI1YzFhNTItN2EwZS00YzBlLTlhNjMtMmYxZDNjNGI1YTY5\",\"Counter\":0\x7d"

/-- The stand-in for `encoding/json` of the honest round. -/
def roundJson : Json :=
  jsonTable [(roundIssuedPayload, roundIssued), (roundSolvedPayload, roundSolved),
    (otherIssuedPayload, otherIssued)]

/-! ## Decimal text -/

theorem parseDigits_append (xs : GoString) (d : Fin 256) (acc : Nat) :
    parseDigits (xs ++ [d]) acc =
      (parseDigits xs acc).bind (fun v => if 48 ≤ d.val ∧ d.val ≤ 57 then some (v * 10 + (d.val - 48)) else none) := by
  induction xs generalizing acc with
  | nil => simp [parseDigits]
  | cons c rest ih =>
    simp only [List.cons_append, parseDigits]
    split
    · exact ih _
    · rfl

theorem digitByte_val (n : Nat) : (digitByte n).val = 48 + n % 10 := by
  simp only [digitByte, Fin.ofNat, Fin.val_mk]
  omega

theorem parseDigits_decDigits (fuel n : Nat) (h : n < fuel) :
    parseDigits (decDigits fuel n) 0 = some n := by
  induction fuel generalizing n with
  | zero => omega
  | succ f ih =>
    simp only [decDigits]
    split
    · simp [parseDigits, digitByte_val]; omega
    · rw [parseDigits_append, ih (n / 10) (by omega)]
      simp [digitByte_val]
      omega

theorem decDigits_digits (fuel n : Nat) : ∀ c ∈ decDigits fuel n, 48 ≤ c.val ∧ c.val ≤ 57 := by
  induction fuel generalizing n with
  | zero => simp [decDigits]
  | succ f ih =>
    intro c hc
    simp only [decDigits] at hc
    split at hc
    · simp at hc; subst hc; rw [digitByte_val]; omega
    · rcases List.mem_append.1 hc with h | h
      · exact ih _ c h
      · simp at h; subst h; rw [digitByte_val]; omega

theorem decDigits_ne_nil (fuel n : Nat) : decDigits (fuel + 1) n ≠ [] := by
  simp only [decDigits]
  split <;> simp

theorem formatNat_ne_nil (n : Nat) : formatNat n ≠ [] := decDigits_ne_nil n n

theorem formatNat_digits (n : Nat) : ∀ c ∈ formatNat n, 48 ≤ c.val ∧ c.val ≤ 57 :=
  decDigits_digits _ _

theorem parseDigits_formatNat (n : Nat) : parseDigits (formatNat n) 0 = some n :=
  parseDigits_decDigits _ _ (by omega)

theorem Atoi_formatInt (x : Int) (hx : isInt64 x) : Atoi (formatInt x) = some x := by
  unfold formatInt
  split
  · rename_i hneg
    have hne := formatNat_ne_nil x.natAbs
    cases hf : formatNat x.natAbs with
    | nil => exact absurd hf hne
    | cons d ds =>
      have hp := parseDigits_formatNat x.natAbs
      rw [hf] at hp
      have e45 : ((45 : Fin 256) : Nat) = 45 := rfl
      have : (-(x.natAbs : Int)) = x := by omega
      simp [Atoi, e45, hp]
      rw [abs_of_neg hneg, neg_neg]
      exact ⟨hx, rfl⟩
  · rename_i hpos
    have hne := formatNat_ne_nil x.natAbs
    cases hf : formatNat x.natAbs with
    | nil => exact absurd hf hne
    | cons d ds =>
      have hp := parseDigits_formatNat x.natAbs
      have hd := formatNat_digits x.natAbs d (by rw [hf]; simp)
      rw [hf] at hp
      have h45 : ¬ (d.val = 45 ∨ d.val = 43) := by omega
      have h45' : ¬ d.val = 45 := by omega
      simp only [Atoi, h45, if_false, hp]
      have : ((x.natAbs : Int)) = x := by omega
      simp [h45', this, hx]

/-! ## Splitting and trimming -/

theorem Split_ne_nil (s : GoString) (sep : Fin 256) : Split s sep ≠ [] := by
  cases s with
  | nil => simp [Split]
  | cons c rest =>
    simp only [Split]
    split
    · simp
    · split <;> simp

theorem Split_length (s : GoString) (sep : Fin 256) :
    (Split s sep).length = s.count sep + 1 := by
  induction s with
  | nil => simp [Split]
  | cons c rest ih =>
    simp only [Split]
    by_cases hc : c = sep
    · subst hc
      simp [ih]
    · have hne := Split_ne_nil rest sep
      rw [if_neg hc, List.count_cons_of_ne (fun h => hc h.symm)]
      cases hs : Split rest sep with
      | nil => exact absurd hs hne
      | cons p ps => rw [hs] at ih; simpa using ih

theorem Split_of_not_mem (s : GoString) (sep : Fin 256) (h : sep ∉ s) : Split s sep = [s] := by
  induction s with
  | nil => simp [Split]
  | cons c rest ih =>
    have hc : ¬ c = sep := fun e => h (by simp [e])
    have hr : sep ∉ rest := fun e => h (List.mem_cons_of_mem _ e)
    simp [Split, hc, ih hr]

theorem Split_append (a b : GoString) (sep : Fin 256) (h : sep ∉ a) :
    Split (a ++ sep :: b) sep = a :: Split b sep := by
  induction a with
  | nil => simp [Split]
  | cons c rest ih =>
    have hc : ¬ c = sep := fun e => h (by simp [e])
    have hr : sep ∉ rest := fun e => h (List.mem_cons_of_mem _ e)
    simp [Split, hc, ih hr]

theorem stripOne_eq_none (encs : List GoString) (s : GoString)
    (h : ∀ e ∈ encs, e.isPrefixOf s = false) : stripOne encs s = none := by
  induction encs with
  | nil => rfl
  | cons e es ih =>
    simp only [stripOne, h e (by simp)]
    exact ih (fun e' he' => h e' (List.mem_cons_of_mem _ he'))

theorem stripLeading_eq_self (encs : List GoString) (fuel : Nat) (s : GoString)
    (h : ∀ e ∈ encs, e.isPrefixOf s = false) : stripLeading encs fuel s = s := by
  cases fuel with
  | zero => rfl
  | succ f => simp [stripLeading, stripOne_eq_none encs s h]

theorem isPrefixOf_append_of_not_mem (e b a : GoString) (x : Fin 256) (hx : x ∉ e)
    (h : e.isPrefixOf (b ++ x :: a) = true) : e.isPrefixOf b = true := by
  induction b generalizing e with
  | nil =>
    cases e with
    | nil => rfl
    | cons c e' =>
      simp only [List.nil_append, List.isPrefixOf, Bool.and_eq_true, beq_iff_eq] at h
      exact absurd (by simp [h.1]) hx
  | cons y b' ih =>
    cases e with
    | nil => rfl
    | cons c e' =>
      simp only [List.cons_append, List.isPrefixOf, Bool.and_eq_true, beq_iff_eq] at h ⊢
      exact ⟨h.1, ih e' (fun hm => hx (List.mem_cons_of_mem _ hm)) h.2⟩

theorem unicodeSpaces_head :
    unicodeSpaces.all (fun e => match e with
      | [] => false
      | e0 :: _ => decide (e0.val < 45 ∨ 57 < e0.val)) = true := by decide

theorem unicodeSpaces_no_splitter :
    unicodeSpaces.all (fun e => decide (splitter ∉ e)) = true := by decide

theorem isPrefixOf_space_false (e : GoString) (he : e ∈ unicodeSpaces) (c : Fin 256) (rest : GoString)
    (hc : 45 ≤ c.val ∧ c.val ≤ 57) : e.isPrefixOf (c :: rest) = false := by
  have h := List.all_eq_true.1 unicodeSpaces_head e he
  cases e with
  | nil => simp at h
  | cons e0 e' =>
    simp only [decide_eq_true_eq] at h
    simp only [List.isPrefixOf, Bool.and_eq_false_imp, beq_iff_eq]
    intro heq
    subst heq
    omega

theorem formatInt_head (x : Int) :
    ∃ c rest, formatInt x = c :: rest ∧ 45 ≤ c.val ∧ c.val ≤ 57 := by
  unfold formatInt
  split
  · exact ⟨45, _, rfl, by decide, by decide⟩
  · cases hf : formatNat x.natAbs with
    | nil => exact absurd hf (formatNat_ne_nil _)
    | cons d ds =>
      have hd := formatNat_digits x.natAbs d (by rw [hf]; simp)
      exact ⟨d, ds, rfl, by omega, hd.2⟩

theorem formatInt_no_splitter (x : Int) : splitter ∉ formatInt x := by
  intro h
  unfold formatInt at h
  have hs : splitter.val = 124 := rfl
  split at h
  · rcases List.mem_cons.1 h with h | h
    · exact absurd (congrArg Fin.val h) (by decide)
    · have := formatNat_digits _ _ h
      omega
  · have := formatNat_digits _ _ h
    omega

theorem TrimSpace_Stringify (m : Message) (hS : endsWithSpace m.Payload = false) :
    TrimSpace m.Stringify = m.Stringify := by
  obtain ⟨c, rest, hc, hc1, hc2⟩ := formatInt_head m.Header
  have hl : trimLeft m.Stringify = m.Stringify := by
    apply stripLeading_eq_self
    intro e he
    simp only [Message.Stringify, hc, List.cons_append]
    exact isPrefixOf_space_false e he c _ ⟨hc1, hc2⟩
  have hr : trimRight m.Stringify = m.Stringify := by
    unfold trimRight
    rw [stripLeading_eq_self, List.reverse_reverse]
    intro e' he'
    obtain ⟨e, he, rfl⟩ := List.mem_map.1 he'
    cases hp : e.reverse.isPrefixOf m.Stringify.reverse with
    | false => rfl
    | true =>
      exfalso
      have hrev : m.Stringify.reverse = m.Payload.reverse ++ splitter :: (formatInt m.Header).reverse := by
        simp [Message.Stringify]
      rw [hrev] at hp
      have hns : splitter ∉ e.reverse := by
        have := List.all_eq_true.1 unicodeSpaces_no_splitter e he
        simpa using this
      have := isPrefixOf_append_of_not_mem _ _ _ _ hns hp
      have hany : endsWithSpace m.Payload = true := by
        unfold endsWithSpace
        exact List.any_eq_true.2 ⟨e, he, this⟩
      rw [hS] at hany
      exact Bool.noConfusion hany
  unfold TrimSpace
  rw [hl, hr]

theorem ParseMessage_Stringify (m : Message) (hH : isInt64 m.Header) (hD : splitter ∉ m.Payload)
    (hS : endsWithSpace m.Payload = false) : ParseMessage m.Stringify = (some m, none) := by
  have hsplit : Split m.Stringify splitter = [formatInt m.Header, m.Payload] := by
    have : m.Stringify = formatInt m.Header ++ splitter :: m.Payload := by simp [Message.Stringify]
    rw [this, Split_append _ _ _ (formatInt_no_splitter _), Split_of_not_mem _ _ hD]
  unfold ParseMessage
  simp only [TrimSpace_Stringify m hS, hsplit]
  simp [Atoi_formatInt m.Header hH]

theorem ParseMessage_cases (s : GoString) :
    (2 < (Split (TrimSpace s) splitter).length ∧ ParseMessage s = (none, some Error.ErrInvalidMessage)) ∨
    ((Split (TrimSpace s) splitter).length ≤ 2 ∧ Atoi ((Split (TrimSpace s) splitter).headD []) = none ∧
      ParseMessage s = (none, some Error.ErrInvalidHeader)) ∨
    ((Split (TrimSpace s) splitter).length ≤ 2 ∧
      ∃ n, Atoi ((Split (TrimSpace s) splitter).headD []) = some n ∧
        ParseMessage s = (some ⟨n, (Split (TrimSpace s) splitter).getD 1 []⟩, none)) := by
  have hlen := Split_length (TrimSpace s) splitter
  unfold ParseMessage
  by_cases h2 : 2 < (Split (TrimSpace s) splitter).length
  · left
    refine ⟨h2, ?_⟩
    simp only []
    rw [if_pos (Or.inr h2)]
  · right
    have hle : (Split (TrimSpace s) splitter).length ≤ 2 := by omega
    have hnot : ¬ ((Split (TrimSpace s) splitter).length < 1 ∨ (Split (TrimSpace s) splitter).length > 2) := by
      omega
    cases ha : Atoi ((Split (TrimSpace s) splitter).headD []) with
    | none =>
      left
      refine ⟨hle, rfl, ?_⟩
      simp only []
      rw [if_neg hnot, ha]
    | some n =>
      right
      refine ⟨hle, n, rfl, ?_⟩
      simp only []
      rw [if_neg hnot, ha]
      simp only []
      by_cases hl : (Split (TrimSpace s) splitter).length = 2
      · rw [if_pos hl]
      · rw [if_neg hl]
        have h1 : (Split (TrimSpace s) splitter).length = 1 := by omega
        have : (Split (TrimSpace s) splitter).getD 1 [] = [] := by
          rw [List.getD_eq_default]
          omega
        rw [this]


theorem stripOne_some (encs : List GoString) (s r : GoString) (hne : ∀ e ∈ encs, e ≠ [])
    (h : stripOne encs s = some r) : ∃ e, e ≠ [] ∧ s = e ++ r := by
  induction encs with
  | nil => simp [stripOne] at h
  | cons e es ih =>
    simp only [stripOne] at h
    split at h
    · rename_i hp
      simp only [Option.some.injEq] at h
      obtain ⟨t, ht⟩ := List.isPrefixOf_iff_prefix.1 hp
      refine ⟨e, hne e (by simp), ?_⟩
      rw [← h, ← ht]
      simp
    · exact ih (fun e' he' => hne e' (List.mem_cons_of_mem _ he')) h

theorem stripOne_isSome (encs : List GoString) (s e : GoString) (he : e ∈ encs)
    (hp : e.isPrefixOf s = true) : (stripOne encs s).isSome = true := by
  induction encs with
  | nil => simp at he
  | cons e' es ih =>
    simp only [stripOne]
    split
    · rfl
    · rename_i hn
      rcases List.mem_cons.1 he with rfl | h
      · exact absurd hp hn
      · exact ih h

theorem stripLeading_suffix (encs : List GoString) (hne : ∀ e ∈ encs, e ≠ []) (fuel : Nat)
    (s : GoString) : ∃ p, s = p ++ stripLeading encs fuel s := by
  induction fuel generalizing s with
  | zero => exact ⟨[], rfl⟩
  | succ f ih =>
    simp only [stripLeading]
    cases h : stripOne encs s with
    | none => exact ⟨[], rfl⟩
    | some r =>
      obtain ⟨e, _, he⟩ := stripOne_some encs s r hne h
      obtain ⟨p, hp⟩ := ih r
      refine ⟨e ++ p, ?_⟩
      simp only []
      rw [List.append_assoc, ← hp, he]

theorem stripLeading_shorter (encs : List GoString) (hne : ∀ e ∈ encs, e ≠ []) (fuel : Nat)
    (s e : GoString) (he : e ∈ encs) (hp : e.isPrefixOf s = true) :
    (stripLeading encs (fuel + 1) s).length < s.length := by
  simp only [stripLeading]
  cases h : stripOne encs s with
  | none =>
    have := stripOne_isSome encs s e he hp
    rw [h] at this
    exact Bool.noConfusion this
  | some r =>
    obtain ⟨e', hne', he'⟩ := stripOne_some encs s r hne h
    obtain ⟨p, hp'⟩ := stripLeading_suffix encs hne fuel r
    simp only []
    have h1 : r.length = p.length + (stripLeading encs fuel r).length := by
      conv_lhs => rw [hp']
      simp
    have h2 : s.length = e'.length + r.length := by
      rw [he']; simp
    have h3 : 0 < e'.length := List.length_pos.2 hne'
    omega

theorem unicodeSpaces_ne_nil : ∀ e ∈ unicodeSpaces.map List.reverse, e ≠ [] := by decide

theorem trimRight_prefix (s : GoString) : trimRight s <+: s := by
  obtain ⟨p, hp⟩ := stripLeading_suffix (unicodeSpaces.map List.reverse) unicodeSpaces_ne_nil
    s.length s.reverse
  refine ⟨p.reverse, ?_⟩
  unfold trimRight
  have := congrArg List.reverse hp
  simp only [List.reverse_reverse, List.reverse_append] at this
  exact this.symm

theorem trimRight_shorter (s : GoString) (h : endsWithSpace s = true) :
    (trimRight s).length < s.length := by
  unfold endsWithSpace at h
  obtain ⟨e, he, hp⟩ := List.any_eq_true.1 h
  have hs : s ≠ [] := by
    intro hs
    subst hs
    revert h
    decide
  obtain ⟨n, hn⟩ : ∃ n, s.length = n + 1 := ⟨s.length - 1, by
    have := List.length_pos.2 hs
    omega⟩
  unfold trimRight
  rw [List.length_reverse, hn]
  have := stripLeading_shorter (unicodeSpaces.map List.reverse) unicodeSpaces_ne_nil n s.reverse
    e.reverse (List.mem_map.2 ⟨e, he, rfl⟩) hp
  rw [List.length_reverse, hn] at this
  exact this

theorem endsWithSpace_append (a b : GoString) (h : endsWithSpace b = true) :
    endsWithSpace (a ++ b) = true := by
  unfold endsWithSpace at h ⊢
  obtain ⟨e, he, hp⟩ := List.any_eq_true.1 h
  refine List.any_eq_true.2 ⟨e, he, ?_⟩
  rw [List.reverse_append]
  exact List.isPrefixOf_iff_prefix.2 ((List.isPrefixOf_iff_prefix.1 hp).trans (List.prefix_append _ _))

theorem ParseMessage_payload (x : GoString) (m : Message) (h : ParseMessage x = (some m, none)) :
    m.Payload = (Split (TrimSpace x) splitter).getD 1 [] := by
  rcases ParseMessage_cases x with ⟨_, hp⟩ | ⟨_, _, hp⟩ | ⟨_, n, _, hp⟩
  · rw [hp] at h; simp at h
  · rw [hp] at h; simp at h
  · rw [hp] at h
    simp only [Prod.mk.injEq, Option.some.injEq, and_true] at h
    rw [← h]

theorem ParseMessage_Stringify_trailing (m : Message) (hD : splitter ∉ m.Payload)
    (hS : endsWithSpace m.Payload = true) : ParseMessage m.Stringify ≠ (some m, none) := by
  intro hparse
  have hpay := ParseMessage_payload _ _ hparse
  obtain ⟨c, rest, hc, hc1, hc2⟩ := formatInt_head m.Header
  have hl : trimLeft m.Stringify = m.Stringify := by
    apply stripLeading_eq_self
    intro e he
    simp only [Message.Stringify, hc, List.cons_append]
    exact isPrefixOf_space_false e he c _ ⟨hc1, hc2⟩
  have hstr : m.Stringify = formatInt m.Header ++ splitter :: m.Payload := by
    simp [Message.Stringify]
  have hends : endsWithSpace m.Stringify = true := by
    rw [hstr, show formatInt m.Header ++ splitter :: m.Payload =
      (formatInt m.Header ++ [splitter]) ++ m.Payload by simp]
    exact endsWithSpace_append _ _ hS
  have ht : TrimSpace m.Stringify = trimRight m.Stringify := by
    unfold TrimSpace
    rw [hl]
  have hpre := trimRight_prefix m.Stringify
  have hlen := trimRight_shorter m.Stringify hends
  rw [ht] at hpay
  have hne : m.Payload ≠ [] := by
    intro he
    rw [he] at hS
    revert hS
    decide
  have hhdr : formatInt m.Header <+: m.Stringify := by
    rw [hstr]; exact List.prefix_append _ _
  rcases List.prefix_or_prefix_of_prefix hpre hhdr with h1 | h1
  · have hno : splitter ∉ trimRight m.Stringify :=
      fun hmem => formatInt_no_splitter m.Header (h1.subset hmem)
    rw [Split_of_not_mem _ _ hno] at hpay
    exact hne (by simpa using hpay)
  · obtain ⟨u, hu⟩ := h1
    obtain ⟨v, hv⟩ := hpre
    rw [← hu, hstr, List.append_assoc] at hv
    have huv : u ++ v = splitter :: m.Payload := List.append_cancel_left hv
    have hvne : v ≠ [] := by
      intro hv0
      rw [hv0, List.append_nil] at huv
      rw [← hu, hstr, huv] at hlen
      exact Nat.lt_irrefl _ hlen
    cases u with
    | nil =>
      rw [← hu, List.append_nil, Split_of_not_mem _ _ (formatInt_no_splitter _)] at hpay
      exact hne (by simpa using hpay)
    | cons a u' =>
      simp only [List.cons_append, List.cons.injEq] at huv
      obtain ⟨ha, hu'⟩ := huv
      have hno : splitter ∉ u' := fun hmem => hD (by rw [← hu']; exact List.mem_append_left _ hmem)
      rw [← hu, ha, Split_append _ _ _ (formatInt_no_splitter _), Split_of_not_mem _ _ hno] at hpay
      simp only [List.getD_cons_succ, List.getD_cons_zero] at hpay
      have : m.Payload.length = u'.length + v.length := by rw [← hu']; simp
      have hv1 := List.length_pos.2 hvne
      rw [hpay] at this
      omega

/-! ## The difficulty predicate -/

theorem Stringify_intercalate (h : HashcashData) :
    h.Stringify = List.intercalate [58]
      [formatInt h.Version, formatInt h.ZerosCount, formatInt h.Date, h.Resource, [], h.Rand,
        formatInt h.Counter] := by
  simp [HashcashData.Stringify, List.intercalate, List.intersperse]

theorem DecodeRune_ascii (c : Fin 256) (t : GoString) (h : c.val < 128) :
    DecodeRuneInString (c :: t) = (c.val, 1) := by
  simp [DecodeRuneInString, h]

theorem acceptLo_ge (s0 : Nat) : 128 ≤ acceptLo s0 ∧ (s0 = 224 → acceptLo s0 = 160) ∧
    (s0 = 240 → acceptLo s0 = 144) := by
  unfold acceptLo
  split_ifs <;> omega

theorem acceptHi_le (s0 : Nat) : acceptHi s0 ≤ 191 := by
  unfold acceptHi
  split_ifs <;> omega

theorem DecodeRune_high (c : Fin 256) (t : GoString) (h : ¬ c.val < 128) :
    128 ≤ (DecodeRuneInString (c :: t)).1 := by
  have hc := c.isLt
  have hlo := acceptLo_ge c.val
  have hhi := acceptHi_le c.val
  simp only [DecodeRuneInString, h, if_false, RuneError]
  split_ifs with h1 h2 h3
  · simp
  · rcases t with _ | ⟨s1, t1⟩
    · simp
    · simp only []
      split_ifs <;> simp only [] <;> omega
  · rcases t with _ | ⟨s1, _ | ⟨s2, t2⟩⟩
    · simp
    · simp
    · simp only []
      split_ifs <;> simp only [] <;> omega
  · rcases t with _ | ⟨s1, _ | ⟨s2, _ | ⟨s3, t3⟩⟩⟩
    · simp
    · simp
    · simp
    · simp only []
      split_ifs <;> simp only [] <;> omega

theorem rangeAllZero_eq (fuel : Nat) (s : GoString) (h : s.length ≤ fuel) :
    rangeAllZero fuel s = s.all (fun c => decide (c.val = 48)) := by
  induction fuel generalizing s with
  | zero =>
    have : s = [] := List.length_eq_zero.1 (by omega)
    subst this
    rfl
  | succ f ih =>
    cases s with
    | nil => rfl
    | cons c t =>
      simp only [rangeAllZero, zeroByte, List.all_cons]
      by_cases hc : c.val = 48
      · rw [DecodeRune_ascii c t (by omega)]
        simp only [hc, ne_eq, not_true_eq_false, if_false, List.drop_one, List.tail_cons,
          decide_True, Bool.true_and]
        exact ih t (by simpa using h)
      · have : (DecodeRuneInString (c :: t)).1 ≠ 48 := by
          by_cases h128 : c.val < 128
          · rw [DecodeRune_ascii c t h128]; exact hc
          · have := DecodeRune_high c t h128
            omega
        simp [this, hc]

theorem IsHashCorrect_of_nonneg (hash : GoString) (z : Int) (hz : 0 ≤ z) :
    IsHashCorrect hash z =
      Run.done (decide (z ≤ (hash.length : Int)) && (hash.take z.toNat).all (fun c => decide (c.val = 48))) := by
  unfold IsHashCorrect
  by_cases h : z > (hash.length : Int)
  · rw [if_pos h]
    have : ¬ z ≤ (hash.length : Int) := by omega
    simp [this]
  · rw [if_neg h, if_neg (by omega)]
    have hle : z ≤ (hash.length : Int) := by omega
    rw [rangeAllZero_eq _ _ (by simp)]
    simp [hle]

theorem all_take_iff (hash : GoString) (n : Nat) (hn : n ≤ hash.length) :
    (hash.take n).all (fun c => decide (c.val = 48)) = true ↔ ∀ i : Nat, i < n → hash[i]? = some 48 := by
  rw [List.all_eq_true]
  constructor
  · intro h i hi
    have hi' : i < hash.length := by omega
    have hmem : hash[i] ∈ hash.take n := by
      rw [List.mem_iff_getElem]
      exact ⟨i, by simp; omega, by simp⟩
    have := h _ hmem
    simp only [decide_eq_true_eq] at this
    rw [List.getElem?_eq_getElem hi']
    exact congrArg some (Fin.ext this)
  · intro h c hc
    rw [List.mem_iff_getElem] at hc
    obtain ⟨i, hi, rfl⟩ := hc
    have hi2 : i < n := by simp at hi; omega
    have := h i hi2
    rw [List.getElem_take]
    rw [List.getElem?_eq_getElem (by omega)] at this
    simp only [Option.some.injEq] at this
    simp only [this, decide_eq_true_eq]
    rfl


/-! ## Base64 -/

theorem b64_char_value : ∀ n : Fin 64, b64Value (b64Char n.val) = some n.val ∧
    (b64Char n.val).val ≠ 61 ∧ (b64Char n.val).val ≠ 10 ∧ (b64Char n.val).val ≠ 13 := by
  decide

theorem b64Value_b64Char (n : Nat) (h : n < 64) : b64Value (b64Char n) = some n :=
  (b64_char_value ⟨n, h⟩).1

theorem b64Char_ne_pad (n : Nat) (h : n < 64) : ¬ (b64Char n).val = 61 :=
  (b64_char_value ⟨n, h⟩).2.1

theorem b64Char_keep (n : Nat) (h : n < 64) : (b64Char n).val ≠ 10 ∧ (b64Char n).val ≠ 13 :=
  (b64_char_value ⟨n, h⟩).2.2

theorem ofNat_byte (a : Fin 256) (n : Nat) (h : n = a.val) : (Fin.ofNat n : Fin 256) = a := by
  apply Fin.ext
  have := a.isLt
  simp only [Fin.ofNat, Fin.val_mk]
  omega

theorem decodeQuanta_EncodeToString (u : GoString) : decodeQuanta (EncodeToString u) = some u := by
  induction u using EncodeToString.induct with
  | case1 => rfl
  | case2 a =>
    have ha := a.isLt
    have e61 : ((61 : Fin 256) : Nat) = 61 := rfl
    have e1 := ofNat_byte a (a.val / 4 * 4 + a.val % 4 * 16 / 16) (by omega)
    simp only [EncodeToString, decodeQuanta, b64Value_b64Char _ (show a.val / 4 < 64 by omega),
      b64Value_b64Char _ (show a.val % 4 * 16 < 64 by omega), e61, if_true, e1]
  | case3 a b =>
    have ha := a.isLt
    have hb := b.isLt
    have e61 : ((61 : Fin 256) : Nat) = 61 := rfl
    have e1 := ofNat_byte a (a.val / 4 * 4 + (a.val % 4 * 16 + b.val / 16) / 16) (by omega)
    have e2 := ofNat_byte b ((a.val % 4 * 16 + b.val / 16) % 16 * 16 + b.val % 16 * 4 / 4) (by omega)
    simp only [EncodeToString, decodeQuanta, b64Value_b64Char _ (show a.val / 4 < 64 by omega),
      b64Value_b64Char _ (show a.val % 4 * 16 + b.val / 16 < 64 by omega),
      b64Value_b64Char _ (show b.val % 16 * 4 < 64 by omega),
      b64Char_ne_pad _ (show b.val % 16 * 4 < 64 by omega), e61, if_true, if_false, e1, e2]
  | case4 a b c rest ih =>
    have ha := a.isLt
    have hb := b.isLt
    have hc := c.isLt
    have h1 : a.val / 4 < 64 := by omega
    have h2 : a.val % 4 * 16 + b.val / 16 < 64 := by omega
    have h3 : b.val % 16 * 4 + c.val / 64 < 64 := by omega
    have h4 : c.val % 64 < 64 := by omega
    have e1 := ofNat_byte a (a.val / 4 * 4 + (a.val % 4 * 16 + b.val / 16) / 16) (by omega)
    have e2 := ofNat_byte b ((a.val % 4 * 16 + b.val / 16) % 16 * 16 + (b.val % 16 * 4 + c.val / 64) / 4)
      (by omega)
    have e3 := ofNat_byte c ((b.val % 16 * 4 + c.val / 64) % 4 * 64 + c.val % 64) (by omega)
    simp only [EncodeToString]
    cases hr : EncodeToString rest with
    | nil =>
      rw [hr] at ih
      simp only [decodeQuanta, Option.some.injEq] at ih
      simp only [decodeQuanta, b64Value_b64Char _ h1, b64Value_b64Char _ h2, b64Value_b64Char _ h3,
        b64Value_b64Char _ h4, b64Char_ne_pad _ h3, b64Char_ne_pad _ h4, if_false, e1, e2, e3, ← ih]
    | cons x xs =>
      rw [hr] at ih
      simp only [decodeQuanta, b64Value_b64Char _ h1, b64Value_b64Char _ h2, b64Value_b64Char _ h3,
        b64Value_b64Char _ h4, ih, e1, e2, e3]

theorem EncodeToString_filter (u : GoString) :
    (EncodeToString u).filter (fun c => decide (c.val ≠ 10 ∧ c.val ≠ 13)) = EncodeToString u := by
  rw [List.filter_eq_self]
  induction u using EncodeToString.induct with
  | case1 => simp [EncodeToString]
  | case2 a =>
    have ha := a.isLt
    intro x hx
    simp only [EncodeToString, List.mem_cons, List.mem_singleton, List.not_mem_nil, or_false] at hx
    rcases hx with rfl | rfl | rfl | rfl
    · simpa using b64Char_keep _ (show a.val / 4 < 64 by omega)
    · simpa using b64Char_keep _ (show a.val % 4 * 16 < 64 by omega)
    · decide
    · decide
  | case3 a b =>
    have ha := a.isLt
    have hb := b.isLt
    intro x hx
    simp only [EncodeToString, List.mem_cons, List.mem_singleton, List.not_mem_nil, or_false] at hx
    rcases hx with rfl | rfl | rfl | rfl
    · simpa using b64Char_keep _ (show a.val / 4 < 64 by omega)
    · simpa using b64Char_keep _ (show a.val % 4 * 16 + b.val / 16 < 64 by omega)
    · simpa using b64Char_keep _ (show b.val % 16 * 4 < 64 by omega)
    · decide
  | case4 a b c rest ih =>
    have ha := a.isLt
    have hb := b.isLt
    have hc := c.isLt
    intro x hx
    simp only [EncodeToString, List.mem_cons] at hx
    rcases hx with rfl | rfl | rfl | rfl | hx
    · simpa using b64Char_keep _ (show a.val / 4 < 64 by omega)
    · simpa using b64Char_keep _ (show a.val % 4 * 16 + b.val / 16 < 64 by omega)
    · simpa using b64Char_keep _ (show b.val % 16 * 4 + c.val / 64 < 64 by omega)
    · simpa using b64Char_keep _ (show c.val % 64 < 64 by omega)
    · exact ih x hx

theorem DecodeString_EncodeToString (u : GoString) : DecodeString (EncodeToString u) = some u := by
  unfold DecodeString
  rw [EncodeToString_filter, decodeQuanta_EncodeToString]

/-! ## The search loop -/

theorem ComputeHashcash_sound (fuel : Nat) (h : HashcashData) (maxIterations : Int) (r : HashcashData)
    (hret : h.ComputeHashcash fuel maxIterations = some (Run.done (r, none))) :
    r.Verify = Run.done true ∧ r.Version = h.Version ∧ r.ZerosCount = h.ZerosCount ∧
      r.Date = h.Date ∧ r.Resource = h.Resource ∧ r.Rand = h.Rand := by
  induction fuel generalizing h with
  | zero => simp [HashcashData.ComputeHashcash] at hret
  | succ f ih =>
    simp only [HashcashData.ComputeHashcash] at hret
    split at hret
    · split at hret
      · simp at hret
      · rename_i hv
        simp only [Option.some.injEq, Run.done.injEq, Prod.mk.injEq, and_true] at hret
        subst hret
        exact ⟨hv, rfl, rfl, rfl, rfl, rfl⟩
      · have := ih _ hret
        simpa using this
    · simp at hret


theorem sha1Hash_vectors :
    sha1Hash (ascii "") = ascii "da39a3ee5e6b4b0d3255bfef95601890afd80709" ∧
    sha1Hash (ascii "abc") = ascii "a9993e364706816aba3e25717850c26c9cd0d89d" ∧
    sha1Hash (ascii "abcdbcdecdefdefgefghfghighijhijkijkljklmklmnlmnomnopnopq") =
      ascii "84983e441c3bd26ebaae4aa1f95129e5e54670f1" ∧
    sha1Hash solvedRecord.Stringify = ascii "00095374cb044a3e5826136d6f8defbfc91c448d" := by
  decide

theorem beBytes_length (n k : Nat) : (beBytes n k).length = k := by
  induction k generalizing n with
  | zero => rfl
  | succ k ih => simp [beBytes, ih]

theorem formatHex_length (bs : List Nat) : (formatHex bs).length = 2 * bs.length := by
  induction bs with
  | nil => rfl
  | cons b bs ih => simp [formatHex, ih]; omega

theorem sha1Hash_length (data : GoString) : (sha1Hash data).length = 40 := by
  simp [sha1Hash, sha1Sum, formatHex_length, beBytes_length]

theorem wrapInt64_of_isInt64 (x : Int) (h : isInt64 x) : wrapInt64 x = x := by
  unfold isInt64 minInt64 maxInt64 at h
  unfold wrapInt64
  omega

theorem wrapInt64_isInt64 (x : Int) : isInt64 (wrapInt64 x) := by
  unfold isInt64 minInt64 maxInt64 wrapInt64
  omega

theorem Verify_of_large_zeros (h : HashcashData) (hz : 40 < h.ZerosCount) : h.Verify = Run.done false := by
  unfold HashcashData.Verify IsHashCorrect
  simp only [sha1Hash_length]
  rw [if_pos (by simpa using hz)]

theorem Verify_not_panicked (h : HashcashData) (hz : 0 ≤ h.ZerosCount) : h.Verify ≠ Run.panicked := by
  unfold HashcashData.Verify
  rw [IsHashCorrect_of_nonneg _ _ hz]
  simp

theorem Verify_true_iff (h : HashcashData) :
    h.Verify = Run.done true ↔
      0 ≤ h.ZerosCount ∧ h.ZerosCount ≤ 40 ∧
        ∀ i : Nat, (i : Int) < h.ZerosCount → (sha1Hash h.Stringify)[i]? = some 48 := by
  by_cases hz : 0 ≤ h.ZerosCount
  · unfold HashcashData.Verify
    rw [IsHashCorrect_of_nonneg _ _ hz]
    simp only [Run.done.injEq, Bool.and_eq_true, decide_eq_true_eq, sha1Hash_length, Nat.cast_ofNat]
    constructor
    · rintro ⟨hle, hall⟩
      refine ⟨hz, hle, fun i hi => ?_⟩
      exact (all_take_iff _ h.ZerosCount.toNat (by rw [sha1Hash_length]; omega)).1 hall i (by omega)
    · rintro ⟨_, hle, hall⟩
      refine ⟨hle, ?_⟩
      exact (all_take_iff _ h.ZerosCount.toNat (by rw [sha1Hash_length]; omega)).2
        (fun i hi => hall i (by omega))
  · have hneg : h.ZerosCount < 0 := by omega
    have hp : h.Verify = Run.panicked := by
      unfold HashcashData.Verify IsHashCorrect
      rw [if_neg (by omega), if_pos hneg]
    rw [hp]
    constructor
    · intro hc
      exact Run.noConfusion hc
    · intro hc
      exact absurd hc.1 hz

theorem ComputeHashcash_never_returns (fuel : Nat) (h : HashcashData) (hz : 40 < h.ZerosCount)
    (hc : h.Counter ≤ maxInt64) : h.ComputeHashcash fuel maxInt64 = none := by
  induction fuel generalizing h with
  | zero => rfl
  | succ f ih =>
    simp only [HashcashData.ComputeHashcash]
    rw [if_pos (Or.inl hc), Verify_of_large_zeros h hz]
    exact ih _ hz (wrapInt64_isInt64 _).2

theorem ComputeHashcash_own_counter (fuel : Nat) (h : HashcashData) (hpos : 0 < h.Counter)
    (hlt : h.Counter < maxInt64) :
    h.ComputeHashcash (fuel + 2) h.Counter =
      some (match h.Verify with
        | Run.panicked => Run.panicked
        | Run.done true => Run.done (h, none)
        | Run.done false => Run.done ({ h with Counter := h.Counter + 1 }, some Error.ErrMaxIterations)) := by
  have hw : wrapInt64 (h.Counter + 1) = h.Counter + 1 := by
    apply wrapInt64_of_isInt64
    unfold maxInt64 at hlt
    unfold isInt64 minInt64 maxInt64
    constructor <;> omega
  simp only [HashcashData.ComputeHashcash, le_refl, true_or, if_true]
  cases hv : h.Verify with
  | panicked => rfl
  | done b =>
    cases b with
    | true => rfl
    | false =>
      simp only [hw]
      rw [if_neg (by omega)]

theorem ComputeHashcash_skip (n : Nat) (fuel : Nat) (h : HashcashData) (maxIterations : Int)
    (hmax : maxIterations < maxInt64) (hmin : minInt64 ≤ h.Counter)
    (hn : h.Counter + n ≤ maxIterations + 1)
    (hfalse : ∀ k : Nat, k < n → ({ h with Counter := h.Counter + k } : HashcashData).Verify = Run.done false) :
    h.ComputeHashcash (fuel + n) maxIterations =
      ({ h with Counter := h.Counter + n } : HashcashData).ComputeHashcash fuel maxIterations := by
  induction n generalizing h with
  | zero => simp
  | succ n ih =>
    have h0 : h.Verify = Run.done false := by
      have := hfalse 0 (by omega)
      simpa using this
    have hle : h.Counter ≤ maxIterations := by omega
    have hw : wrapInt64 (h.Counter + 1) = h.Counter + 1 := by
      apply wrapInt64_of_isInt64
      unfold maxInt64 at hmax
      unfold minInt64 at hmin
      unfold isInt64 minInt64 maxInt64
      constructor <;> omega
    rw [show fuel + (n + 1) = (fuel + n) + 1 by omega]
    simp only [HashcashData.ComputeHashcash]
    rw [if_pos (Or.inl hle), h0, hw]
    simp only []
    rw [ih { h with Counter := h.Counter + 1 } (by simp only []; omega) (by simp only []; push_cast at hn; omega)]
    · simp only [Nat.cast_add, Nat.cast_one]
      congr 2
      omega
    · intro k hk
      have := hfalse (k + 1) (by omega)
      simp only [Nat.cast_add, Nat.cast_one] at this
      have e : h.Counter + 1 + (k : Int) = h.Counter + ((k : Int) + 1) := by omega
      simp only [e]
      exact this

theorem ComputeHashcash_least (fuel : Nat) (h : HashcashData) (maxIterations c : Int)
    (hmax : maxIterations < maxInt64) (hmin : minInt64 ≤ h.Counter) (hc0 : h.Counter ≤ c)
    (hc : c ≤ maxIterations)
    (hv : ({ h with Counter := c } : HashcashData).Verify = Run.done true)
    (hleast : ∀ c' : Int, h.Counter ≤ c' → c' < c →
      ({ h with Counter := c' } : HashcashData).Verify = Run.done false) :
    h.ComputeHashcash (fuel + 1 + (c - h.Counter).toNat) maxIterations =
      some (Run.done ({ h with Counter := c }, none)) := by
  have hcast : ((c - h.Counter).toNat : Int) = c - h.Counter := by omega
  rw [ComputeHashcash_skip _ _ _ _ hmax hmin (by omega)
    (fun k hk => hleast _ (by omega) (by omega))]
  have e : h.Counter + ((c - h.Counter).toNat : Int) = c := by omega
  simp only [e, HashcashData.ComputeHashcash]
  rw [if_pos (Or.inl hc), hv]

theorem ComputeHashcash_exhausted (fuel : Nat) (h : HashcashData) (maxIterations : Int)
    (hpos : 0 < maxIterations) (hmax : maxIterations < maxInt64) (hmin : minInt64 ≤ h.Counter)
    (hnone : ∀ c' : Int, h.Counter ≤ c' → c' ≤ maxIterations →
      ({ h with Counter := c' } : HashcashData).Verify = Run.done false) :
    h.ComputeHashcash (fuel + 1 + (maxIterations + 1 - h.Counter).toNat) maxIterations =
      some (Run.done ({ h with Counter := max h.Counter (maxIterations + 1) },
        some Error.ErrMaxIterations)) := by
  by_cases hgt : maxIterations < h.Counter
  · have e0 : (maxIterations + 1 - h.Counter).toNat = 0 := by omega
    have e1 : max h.Counter (maxIterations + 1) = h.Counter := by omega
    simp only [e0, e1, Nat.add_zero, HashcashData.ComputeHashcash]
    rw [if_neg (by omega)]
  · rw [ComputeHashcash_skip _ _ _ _ hmax hmin (by omega)
      (fun k hk => hnone _ (by omega) (by omega))]
    have e : h.Counter + ((maxIterations + 1 - h.Counter).toNat : Int) = maxIterations + 1 := by omega
    have e1 : max h.Counter (maxIterations + 1) = maxIterations + 1 := by omega
    simp only [e, e1, HashcashData.ComputeHashcash]
    rw [if_neg (by omega)]

/-! ## The request handler -/

theorem resourceRequest_parse :
    ParseMessage (resourceRequest solvedPayload) = (some ⟨4, solvedPayload⟩, none) ∧
    ParseMessage (resourceRequest stalePayload) = (some ⟨4, stalePayload⟩, none) ∧
    ParseMessage (resourceRequest maxCounterPayload) = (some ⟨4, maxCounterPayload⟩, none) ∧
    ParseMessage (resourceRequest unsolvablePayload) = (some ⟨4, unsolvablePayload⟩, none) := by
  decide

theorem processRequest_wrong_resource {σ : Type} (fuel : Nat) (cfg : Config) (cache : Cache σ)
    (json : Json) (env : Env) (st : σ) (msgStr clientInfo : GoString) (m : Message)
    (record : HashcashData) (hparse : ParseMessage msgStr = (some m, none))
    (hreq : m.Header = RequestResource) (hjson : json.Unmarshal m.Payload = (record, none))
    (hres : record.Resource ≠ clientInfo) :
    processRequest fuel cfg cache json env st msgStr clientInfo =
      some (Run.done ((none, some Error.ErrInvalidResource), st)) := by
  simp [processRequest, hparse, hreq, hjson, hres, Quit, RequestChallenge, RequestResource]

theorem processRequest_redeem {σ : Type} (fuel : Nat) (cfg : Config) (cache : Cache σ) (json : Json)
    (env : Env) (st st1 : σ) (msgStr clientInfo uid : GoString) (m : Message) (record : HashcashData)
    (hparse : ParseMessage msgStr = (some m, none)) (hreq : m.Header = RequestResource)
    (hjson : json.Unmarshal m.Payload = (record, none)) (hres : record.Resource = clientInfo)
    (hdec : DecodeString record.Rand = some uid) (hex : cache.Exist st uid = (st1, (true, none)))
    (hfresh : ¬ wrapInt64 (env.now - record.Date) > cfg.Duration)
    (hpos : 0 < record.Counter) (hlt : record.Counter < maxInt64) :
    processRequest (fuel + 2) cfg cache json env st msgStr clientInfo =
      match record.Verify with
      | Run.panicked => some Run.panicked
      | Run.done true =>
        some (Run.done ((some ⟨ResponseResource, quotes.getD env.randQuote.val []⟩, none),
          (cache.Delete st1 uid).1))
      | Run.done false => some (Run.done ((none, some Error.ErrInvalidHashcash), st1)) := by
  have hnp : ¬ record.Counter ≤ 0 := by omega
  simp only [processRequest, hparse, hreq, hjson, hres, hdec, hex, Quit, RequestChallenge,
    RequestResource, ne_eq, not_true_eq_false, if_false, hfresh, hnp, Bool.not_true,
    ComputeHashcash_own_counter fuel record hpos hlt]
  simp only [show ¬ ((4 : Int) = 1) by decide, show ¬ ((4 : Int) = 2) by decide, if_false, if_true]
  cases hv : record.Verify with
  | panicked => simp
  | done b => cases b <;> simp

theorem processRequest_expired {σ : Type} (fuel : Nat) (cfg : Config) (cache : Cache σ) (json : Json)
    (env : Env) (st st1 : σ) (msgStr clientInfo uid : GoString) (m : Message) (record : HashcashData)
    (hparse : ParseMessage msgStr = (some m, none)) (hreq : m.Header = RequestResource)
    (hjson : json.Unmarshal m.Payload = (record, none)) (hres : record.Resource = clientInfo)
    (hdec : DecodeString record.Rand = some uid) (hex : cache.Exist st uid = (st1, (true, none)))
    (hrange : isInt64 (env.now - record.Date)) (hold : record.Date < env.now - cfg.Duration) :
    processRequest fuel cfg cache json env st msgStr clientInfo =
      some (Run.done ((none, some Error.ErrExpiredChallenge), st1)) := by
  have hexp : wrapInt64 (env.now - record.Date) > cfg.Duration := by
    rw [wrapInt64_of_isInt64 _ hrange]
    omega
  simp only [processRequest, hparse, hreq, hjson, hres, hdec, hex, Quit, RequestChallenge,
    RequestResource, ne_eq, not_true_eq_false, if_false, hexp, Bool.not_true]
  simp

theorem processRequest_never_returns {σ : Type} (fuel : Nat) (cfg : Config) (cache : Cache σ)
    (json : Json) (env : Env) (st st1 : σ) (msgStr clientInfo uid : GoString) (m : Message)
    (record : HashcashData) (hparse : ParseMessage msgStr = (some m, none))
    (hreq : m.Header = RequestResource) (hjson : json.Unmarshal m.Payload = (record, none))
    (hres : record.Resource = clientInfo) (hdec : DecodeString record.Rand = some uid)
    (hex : cache.Exist st uid = (st1, (true, none)))
    (hfresh : ¬ wrapInt64 (env.now - record.Date) > cfg.Duration)
    (hc : record.Counter = maxInt64) (hz : 40 < record.ZerosCount) :
    processRequest fuel cfg cache json env st msgStr clientInfo = none := by
  have hnp : ¬ record.Counter ≤ 0 := by rw [hc]; decide
  have hnever := ComputeHashcash_never_returns fuel record hz (by rw [hc])
  rw [← hc] at hnever
  simp only [processRequest, hparse, hreq, hjson, hres, hdec, hex, Quit, RequestChallenge,
    RequestResource, ne_eq, not_true_eq_false, if_false, hfresh, hnp, Bool.not_true, hnever]
  simp

/-! ## Outcomes of the request handler -/

theorem quotes_getD_mem (i : Fin 5) : quotes.getD i.val [] ∈ quotes := by
  revert i
  decide

theorem processRequest_challenge {σ : Type} (fuel : Nat) (cfg : Config) (cache : Cache σ) (json : Json)
    (env : Env) (st : σ) (msgStr clientInfo : GoString) (m : Message)
    (hparse : ParseMessage msgStr = (some m, none)) (hreq : m.Header = RequestChallenge) :
    processRequest fuel cfg cache json env st msgStr clientInfo =
      match cache.Add st env.uid cfg.Duration with
      | (st1, some err) =>
        some (Run.done ((none, some (Error.wrap "failed to add rand to cache" err)), st1))
      | (st1, none) =>
        match json.Marshal (NewHashcash env.now cfg.ZeroCount clientInfo env.uid) with
        | (_, some _) => some (Run.done ((none, some (Error.errorf "failed to marshal hashcash")), st1))
        | (b, none) => some (Run.done ((some { Header := ResponseChallenge, Payload := b }, none), st1)) := by
  simp only [processRequest, hparse, hreq, Quit, RequestChallenge]
  simp only [show ¬ ((2 : Int) = 1) by decide, if_false, if_true]

theorem processRequest_resource {σ : Type} (fuel : Nat) (cfg : Config) (cache : Cache σ) (json : Json)
    (env : Env) (st st1 : σ) (msgStr clientInfo uid : GoString) (m : Message) (record : HashcashData)
    (found : Bool)
    (hparse : ParseMessage msgStr = (some m, none)) (hreq : m.Header = RequestResource)
    (hjson : json.Unmarshal m.Payload = (record, none)) (hres : record.Resource = clientInfo)
    (hdec : DecodeString record.Rand = some uid) (hex : cache.Exist st uid = (st1, (found, none))) :
    processRequest fuel cfg cache json env st msgStr clientInfo =
      if found = false then some (Run.done ((none, some Error.ErrNotFoundChallenge), st1))
      else if wrapInt64 (env.now - record.Date) > cfg.Duration then
        some (Run.done ((none, some Error.ErrExpiredChallenge), st1))
      else if record.Counter ≤ 0 then some (Run.done ((none, some Error.ErrInvalidHashcash), st1))
      else
        match record.ComputeHashcash fuel record.Counter with
        | none => none
        | some Run.panicked => some Run.panicked
        | some (Run.done (_, some _)) => some (Run.done ((none, some Error.ErrInvalidHashcash), st1))
        | some (Run.done (_, none)) =>
          some (Run.done
            ((some { Header := ResponseResource, Payload := quotes.getD env.randQuote.val [] }, none),
              (cache.Delete st1 uid).1)) := by
  simp only [processRequest, hparse, hreq, hjson, hres, hdec, hex, Quit, RequestChallenge,
    RequestResource, ne_eq, not_true_eq_false, if_false]
  simp only [show ¬ ((4 : Int) = 1) by decide, show ¬ ((4 : Int) = 2) by decide, if_false, if_true]
  cases found <;> simp

theorem done_result_inj {σ : Type} {a msg : Option Message} {b err : Option Error} {s s' : σ}
    (h : (some (Run.done ((a, b), s)) : Option (Run ((Option Message × Option Error) × σ))) =
      some (Run.done ((msg, err), s'))) : msg = a ∧ err = b ∧ s' = s := by
  simp only [Option.some.injEq, Run.done.injEq, Prod.mk.injEq] at h
  exact ⟨h.1.1.symm, h.1.2.symm, h.2.symm⟩

theorem processRequest_cases {σ : Type} (fuel : Nat) (cfg : Config) (cache : Cache σ) (json : Json)
    (env : Env) (st st' : σ) (msgStr clientInfo : GoString) (msg : Option Message) (err : Option Error)
    (h : processRequest fuel cfg cache json env st msgStr clientInfo = some (Run.done ((msg, err), st'))) :
    (msg = none ∧ err ≠ none ∧
      (st' = st ∨
        (∃ m, ParseMessage msgStr = (some m, none) ∧ m.Header = RequestChallenge ∧
          st' = (cache.Add st env.uid cfg.Duration).1) ∨
        ∃ uid, st' = (cache.Exist st uid).1)) ∨
    (∃ m b, ParseMessage msgStr = (some m, none) ∧ m.Header = RequestChallenge ∧
      cache.Add st env.uid cfg.Duration = (st', none) ∧
      json.Marshal (NewHashcash env.now cfg.ZeroCount clientInfo env.uid) = (b, none) ∧
      msg = some { Header := ResponseChallenge, Payload := b } ∧ err = none) ∨
    (∃ m record uid st1 r, ParseMessage msgStr = (some m, none) ∧ m.Header = RequestResource ∧
      json.Unmarshal m.Payload = (record, none) ∧ record.Resource = clientInfo ∧
      DecodeString record.Rand = some uid ∧ cache.Exist st uid = (st1, (true, none)) ∧
      ¬ wrapInt64 (env.now - record.Date) > cfg.Duration ∧ 0 < record.Counter ∧
      record.ComputeHashcash fuel record.Counter = some (Run.done (r, none)) ∧
      msg = some { Header := ResponseResource, Payload := quotes.getD env.randQuote.val [] } ∧
      err = none ∧ st' = (cache.Delete st1 uid).1) := by
  rcases hp : ParseMessage msgStr with ⟨_ | m, _ | pe⟩
  · simp [processRequest, hp] at h
  · simp only [processRequest, hp] at h
    obtain ⟨rfl, rfl, rfl⟩ := done_result_inj h
    exact Or.inl ⟨rfl, by simp, Or.inl rfl⟩
  rotate_left
  · simp only [processRequest, hp] at h
    obtain ⟨rfl, rfl, rfl⟩ := done_result_inj h
    exact Or.inl ⟨rfl, by simp, Or.inl rfl⟩
  · by_cases hq : m.Header = Quit
    · simp only [processRequest, hp, hq, if_true] at h
      obtain ⟨rfl, rfl, rfl⟩ := done_result_inj h
      exact Or.inl ⟨rfl, by simp, Or.inl rfl⟩
    · by_cases hc : m.Header = RequestChallenge
      · rw [processRequest_challenge fuel cfg cache json env st msgStr clientInfo m hp hc] at h
        rcases hadd : cache.Add st env.uid cfg.Duration with ⟨s1, _ | e⟩
        · rcases hm : json.Marshal (NewHashcash env.now cfg.ZeroCount clientInfo env.uid) with ⟨b, _ | e⟩
          · simp only [hadd, hm] at h
            obtain ⟨rfl, rfl, rfl⟩ := done_result_inj h
            exact Or.inr (Or.inl ⟨m, b, rfl, hc, rfl, rfl, rfl, rfl⟩)
          · simp only [hadd, hm] at h
            obtain ⟨rfl, rfl, rfl⟩ := done_result_inj h
            exact Or.inl ⟨rfl, by simp, Or.inr (Or.inl ⟨m, rfl, hc, rfl⟩)⟩
        · simp only [hadd] at h
          obtain ⟨rfl, rfl, rfl⟩ := done_result_inj h
          exact Or.inl ⟨rfl, by simp, Or.inr (Or.inl ⟨m, rfl, hc, rfl⟩)⟩
      · by_cases hr : m.Header = RequestResource
        · rcases hj : json.Unmarshal m.Payload with ⟨record, _ | e⟩
          · by_cases hres : record.Resource = clientInfo
            · cases hd : DecodeString record.Rand with
              | none =>
                simp only [processRequest, hp, hq, hc, hr, hj, hres, hd, if_true, if_false, ne_eq,
                  not_true_eq_false] at h
                obtain ⟨rfl, rfl, rfl⟩ := done_result_inj h
                exact Or.inl ⟨rfl, by simp, Or.inl rfl⟩
              | some uid =>
                rcases hex : cache.Exist st uid with ⟨s1, found, _ | e⟩
                · rw [processRequest_resource fuel cfg cache json env st s1 msgStr clientInfo uid m
                    record found hp hr hj hres hd hex] at h
                  have hs1 : s1 = (cache.Exist st uid).1 := by rw [hex]
                  split_ifs at h with hf hexp hcnt
                  · obtain ⟨rfl, rfl, rfl⟩ := done_result_inj h
                    exact Or.inl ⟨rfl, by simp, Or.inr (Or.inr ⟨uid, hs1⟩)⟩
                  · obtain ⟨rfl, rfl, rfl⟩ := done_result_inj h
                    exact Or.inl ⟨rfl, by simp, Or.inr (Or.inr ⟨uid, hs1⟩)⟩
                  · obtain ⟨rfl, rfl, rfl⟩ := done_result_inj h
                    exact Or.inl ⟨rfl, by simp, Or.inr (Or.inr ⟨uid, hs1⟩)⟩
                  · rcases hch : record.ComputeHashcash fuel record.Counter with _ | (⟨r, _ | e⟩ | _)
                    · simp [hch] at h
                    · simp only [hch] at h
                      obtain ⟨rfl, rfl, rfl⟩ := done_result_inj h
                      have hfound : found = true := by
                        cases found
                        · exact absurd rfl hf
                        · rfl
                      subst hfound
                      exact Or.inr (Or.inr ⟨m, record, uid, s1, r, rfl, hr, hj, hres, hd, hex, hexp,
                        by omega, hch, rfl, rfl, rfl⟩)
                    · simp only [hch] at h
                      obtain ⟨rfl, rfl, rfl⟩ := done_result_inj h
                      exact Or.inl ⟨rfl, by simp, Or.inr (Or.inr ⟨uid, hs1⟩)⟩
                    · simp [hch] at h
                · simp only [processRequest, hp, hq, hc, hr, hj, hres, hd, hex, if_true, if_false, ne_eq,
                    not_true_eq_false] at h
                  obtain ⟨rfl, rfl, rfl⟩ := done_result_inj h
                  exact Or.inl ⟨rfl, by simp, Or.inr (Or.inr ⟨uid, by rw [hex]⟩)⟩
            · simp only [processRequest, hp, hq, hc, hr, hj, hres, if_true, if_false, ne_eq,
                not_false_eq_true] at h
              obtain ⟨rfl, rfl, rfl⟩ := done_result_inj h
              exact Or.inl ⟨rfl, by simp, Or.inl rfl⟩
          · simp only [processRequest, hp, hq, hc, hr, hj, if_true, if_false] at h
            obtain ⟨rfl, rfl, rfl⟩ := done_result_inj h
            exact Or.inl ⟨rfl, by simp, Or.inl rfl⟩
        · simp only [processRequest, hp, hq, hc, hr, if_false] at h
          obtain ⟨rfl, rfl, rfl⟩ := done_result_inj h
          exact Or.inl ⟨rfl, by simp, Or.inl rfl⟩

theorem processRequest_parse_error {σ : Type} (fuel : Nat) (cfg : Config) (cache : Cache σ)
    (json : Json) (env : Env) (st : σ) (msgStr clientInfo : GoString) (pm : Option Message) (e : Error)
    (hparse : ParseMessage msgStr = (pm, some e)) :
    processRequest fuel cfg cache json env st msgStr clientInfo = some (Run.done ((none, some e), st)) := by
  simp only [processRequest, hparse]

theorem processRequest_quit {σ : Type} (fuel : Nat) (cfg : Config) (cache : Cache σ)
    (json : Json) (env : Env) (st : σ) (msgStr clientInfo : GoString) (m : Message)
    (hparse : ParseMessage msgStr = (some m, none)) (hq : m.Header = Quit) :
    processRequest fuel cfg cache json env st msgStr clientInfo =
      some (Run.done ((none, some Error.ErrQuit), st)) := by
  simp only [processRequest, hparse, hq, if_true]

theorem processRequest_unknown {σ : Type} (fuel : Nat) (cfg : Config) (cache : Cache σ)
    (json : Json) (env : Env) (st : σ) (msgStr clientInfo : GoString) (m : Message)
    (hparse : ParseMessage msgStr = (some m, none)) (h1 : m.Header ≠ Quit)
    (h2 : m.Header ≠ RequestChallenge) (h4 : m.Header ≠ RequestResource) :
    processRequest fuel cfg cache json env st msgStr clientInfo =
      some (Run.done ((none, some (Error.errorf "unknown header")), st)) := by
  simp only [processRequest, hparse, h1, h2, h4, if_false]

theorem written_cases {σ : Type} (fuel : Nat) (cfg : Config) (cache : Cache σ) (json : Json)
    (env : Env) (st : σ) (msgStr clientInfo : GoString) :
    written (processRequest fuel cfg cache json env st msgStr clientInfo) = none ∨
    ∃ m : Message, (m.Header = ResponseChallenge ∨ m.Header = ResponseResource) ∧
      written (processRequest fuel cfg cache json env st msgStr clientInfo) =
        some (m.Stringify ++ [10]) := by
  rcases hout : processRequest fuel cfg cache json env st msgStr clientInfo with _ | (⟨⟨msg, err⟩, st'⟩ | _)
  · exact Or.inl rfl
  · rcases processRequest_cases fuel cfg cache json env st st' msgStr clientInfo msg err hout with
      ⟨rfl, he, _⟩ | ⟨m, b, _, _, _, _, rfl, rfl⟩ | ⟨m, record, uid, st1, r, _, _, _, _, _, _, _, _, _, rfl, rfl, _⟩
    · left
      cases err with
      | none => exact absurd rfl he
      | some e => rfl
    · exact Or.inr ⟨_, Or.inl rfl, rfl⟩
    · exact Or.inr ⟨_, Or.inr rfl, rfl⟩
  · exact Or.inl rfl

theorem ComputeHashcash_own_counter_success (fuel : Nat) (h r : HashcashData) (hpos : 0 < h.Counter)
    (hlt : h.Counter < maxInt64)
    (hret : h.ComputeHashcash fuel h.Counter = some (Run.done (r, none))) :
    h.Verify = Run.done true ∧ r = h := by
  have hw : wrapInt64 (h.Counter + 1) = h.Counter + 1 := by
    apply wrapInt64_of_isInt64
    unfold maxInt64 at hlt
    unfold isInt64 minInt64 maxInt64
    constructor <;> omega
  cases fuel with
  | zero => simp [HashcashData.ComputeHashcash] at hret
  | succ f =>
    simp only [HashcashData.ComputeHashcash, le_refl, true_or, if_true] at hret
    cases hv : h.Verify with
    | panicked => simp [hv] at hret
    | done b =>
      cases b with
      | true =>
        simp only [hv, Option.some.injEq, Run.done.injEq, Prod.mk.injEq, and_true] at hret
        exact ⟨rfl, hret.symm⟩
      | false =>
        simp only [hv, hw] at hret
        cases f with
        | zero => simp [HashcashData.ComputeHashcash] at hret
        | succ g =>
          simp only [HashcashData.ComputeHashcash] at hret
          rw [if_neg (by omega)] at hret
          simp at hret

theorem ComputeHashcash_of_Verify (fuel : Nat) (h : HashcashData) (hv : h.Verify = Run.done true) :
    h.ComputeHashcash (fuel + 1) h.Counter = some (Run.done (h, none)) := by
  simp only [HashcashData.ComputeHashcash, le_refl, true_or, if_true, hv]

theorem processRequest_ignores_ZeroCount {σ : Type} (fuel : Nat) (cfg : Config) (cache : Cache σ)
    (json : Json) (env : Env) (st : σ) (msgStr clientInfo : GoString) (m : Message) (z : Int)
    (hparse : ParseMessage msgStr = (some m, none)) (hreq : m.Header = RequestResource) :
    processRequest fuel { cfg with ZeroCount := z } cache json env st msgStr clientInfo =
      processRequest fuel cfg cache json env st msgStr clientInfo := by
  simp only [processRequest, hparse, hreq, Quit, RequestChallenge, RequestResource]
  simp only [show ¬ ((4 : Int) = 1) by decide, show ¬ ((4 : Int) = 2) by decide, if_false, if_true]

theorem IsHashCorrect_of_neg (hash : GoString) (z : Int) (hz : z < 0) :
    IsHashCorrect hash z = Run.panicked := by
  unfold IsHashCorrect
  rw [if_neg (by omega), if_pos hz]

theorem Verify_of_negative (h : HashcashData) (hz : h.ZerosCount < 0) : h.Verify = Run.panicked := by
  unfold HashcashData.Verify
  exact IsHashCorrect_of_neg _ _ hz

theorem processRequest_panics {σ : Type} (fuel : Nat) (cfg : Config) (cache : Cache σ) (json : Json)
    (env : Env) (st st1 : σ) (msgStr clientInfo uid : GoString) (m : Message) (record : HashcashData)
    (hparse : ParseMessage msgStr = (some m, none)) (hreq : m.Header = RequestResource)
    (hjson : json.Unmarshal m.Payload = (record, none)) (hres : record.Resource = clientInfo)
    (hdec : DecodeString record.Rand = some uid) (hex : cache.Exist st uid = (st1, (true, none)))
    (hfresh : ¬ wrapInt64 (env.now - record.Date) > cfg.Duration)
    (hpos : 0 < record.Counter) (hz : record.ZerosCount < 0) :
    processRequest (fuel + 1) cfg cache json env st msgStr clientInfo = some Run.panicked := by
  have hnp : ¬ record.Counter ≤ 0 := by omega
  have hch : record.ComputeHashcash (fuel + 1) record.Counter = some Run.panicked := by
    simp only [HashcashData.ComputeHashcash, le_refl, true_or, if_true, Verify_of_negative record hz]
  rw [processRequest_resource (fuel + 1) cfg cache json env st st1 msgStr clientInfo uid m record true
    hparse hreq hjson hres hdec hex, hch]
  simp [hfresh, hnp]

theorem ParseMessage_ne_nil_nil (s : GoString) : ParseMessage s ≠ (none, none) := by
  rcases ParseMessage_cases s with ⟨_, hp⟩ | ⟨_, _, hp⟩ | ⟨_, n, _, hp⟩ <;> rw [hp] <;> simp

theorem processRequest_returns {σ : Type} (fuel : Nat) (cfg : Config) (cache : Cache σ) (json : Json)
    (env : Env) (st : σ) (msgStr clientInfo : GoString)
    (hrange : ∀ m record, ParseMessage msgStr = (some m, none) → m.Header = RequestResource →
      json.Unmarshal m.Payload = (record, none) → 0 ≤ record.ZerosCount ∧ record.Counter < maxInt64) :
    ∃ res st', processRequest (fuel + 2) cfg cache json env st msgStr clientInfo =
      some (Run.done (res, st')) := by
  rcases hp : ParseMessage msgStr with ⟨_ | m, _ | pe⟩
  · exact absurd hp (ParseMessage_ne_nil_nil msgStr)
  · exact ⟨_, _, processRequest_parse_error _ cfg cache json env st msgStr clientInfo _ pe hp⟩
  rotate_left
  · exact ⟨_, _, processRequest_parse_error _ cfg cache json env st msgStr clientInfo _ pe hp⟩
  · by_cases hq : m.Header = Quit
    · exact ⟨_, _, processRequest_quit _ cfg cache json env st msgStr clientInfo m hp hq⟩
    · by_cases hc : m.Header = RequestChallenge
      · rw [processRequest_challenge _ cfg cache json env st msgStr clientInfo m hp hc]
        rcases hadd : cache.Add st env.uid cfg.Duration with ⟨s1, _ | e⟩
        · rcases hm : json.Marshal (NewHashcash env.now cfg.ZeroCount clientInfo env.uid) with ⟨b, _ | e⟩
          · exact ⟨_, _, rfl⟩
          · exact ⟨_, _, rfl⟩
        · exact ⟨_, _, rfl⟩
      · by_cases hr : m.Header = RequestResource
        · rcases hj : json.Unmarshal m.Payload with ⟨record, _ | e⟩
          · obtain ⟨hz, hlt⟩ := hrange m record hp hr hj
            by_cases hres : record.Resource = clientInfo
            · cases hd : DecodeString record.Rand with
              | none =>
                simp only [processRequest, hp, hq, hc, hr, hj, hres, hd, if_true, if_false, ne_eq,
                  not_true_eq_false]
                exact ⟨_, _, rfl⟩
              | some uid =>
                rcases hex : cache.Exist st uid with ⟨s1, found, _ | e⟩
                · rw [processRequest_resource _ cfg cache json env st s1 msgStr clientInfo uid m
                    record found hp hr hj hres hd hex]
                  split_ifs with hf hexp hcnt
                  · exact ⟨_, _, rfl⟩
                  · exact ⟨_, _, rfl⟩
                  · exact ⟨_, _, rfl⟩
                  · rw [ComputeHashcash_own_counter fuel record (by omega) hlt]
                    cases hv : record.Verify with
                    | panicked => exact absurd hv (Verify_not_panicked record hz)
                    | done b => cases b <;> exact ⟨_, _, rfl⟩
                · simp only [processRequest, hp, hq, hc, hr, hj, hres, hd, hex, if_true, if_false, ne_eq,
                    not_true_eq_false]
                  exact ⟨_, _, rfl⟩
            · exact ⟨_, _, processRequest_wrong_resource _ cfg cache json env st msgStr clientInfo m
                record hp hr hj hres⟩
          · simp only [processRequest, hp, hq, hc, hr, hj, if_true, if_false]
            exact ⟨_, _, rfl⟩
        · exact ⟨_, _, processRequest_unknown _ cfg cache json env st msgStr clientInfo m hp hq hc hr⟩

theorem processRequest_honest_redeem {σ : Type} (fuel : Nat) (cfg : Config) (cache : Cache σ)
    (json : Json) (env1 env2 : Env) (st2 st3 : σ) (msg2 clientInfo : GoString) (m2 : Message)
    (r : HashcashData) (fuel2 : Nat) (cap : Int)
    (hsolve : (NewHashcash env1.now cfg.ZeroCount clientInfo env1.uid).ComputeHashcash fuel2 cap =
      some (Run.done (r, none)))
    (hpos : 0 < r.Counter)
    (hparse : ParseMessage msg2 = (some m2, none)) (hreq : m2.Header = RequestResource)
    (hjson : json.Unmarshal m2.Payload = (r, none))
    (hcache : cache.Exist st2 env1.uid = (st3, (true, none)))
    (hafter : 0 ≤ env2.now - env1.now) (hwithin : env2.now - env1.now ≤ cfg.Duration)
    (hdur : cfg.Duration ≤ maxInt64) :
    processRequest (fuel + 1) cfg cache json env2 st2 msg2 clientInfo =
      some (Run.done
        ((some { Header := ResponseResource, Payload := quotes.getD env2.randQuote.val [] }, none),
          (cache.Delete st3 env1.uid).1)) := by
  obtain ⟨hv, hver, hz, hdate, hres, hrand⟩ := ComputeHashcash_sound _ _ _ _ hsolve
  have hres' : r.Resource = clientInfo := by rw [hres]; rfl
  have hdec : DecodeString r.Rand = some env1.uid := by
    rw [hrand]
    exact DecodeString_EncodeToString env1.uid
  have hdate' : r.Date = env1.now := by rw [hdate]; rfl
  have hfreshness : ¬ wrapInt64 (env2.now - r.Date) > cfg.Duration := by
    rw [hdate', wrapInt64_of_isInt64]
    · omega
    · unfold maxInt64 at hdur
      unfold isInt64 minInt64 maxInt64
      constructor <;> omega
  rw [processRequest_resource (fuel + 1) cfg cache json env2 st2 st3 msg2 clientInfo env1.uid m2 r true
    hparse hreq hjson hres' hdec hcache, ComputeHashcash_of_Verify fuel r hv]
  simp [hfreshness, hpos]

theorem processRequest_accept_verifies {σ : Type} (fuel : Nat) (cfg : Config) (cache : Cache σ)
    (json : Json) (env : Env) (st st' : σ) (msgStr clientInfo : GoString) (m msg : Message)
    (record : HashcashData) (hparse : ParseMessage msgStr = (some m, none))
    (hreq : m.Header = RequestResource) (hjson : json.Unmarshal m.Payload = (record, none))
    (hlt : record.Counter < maxInt64)
    (h : processRequest fuel cfg cache json env st msgStr clientInfo =
      some (Run.done ((some msg, none), st'))) :
    msg.Header = ResponseResource ∧ record.Verify = Run.done true := by
  rcases processRequest_cases fuel cfg cache json env st st' msgStr clientInfo _ _ h with
    ⟨hm, _⟩ | ⟨m', b, hp, hc, _⟩ |
    ⟨m', record', k, st1, r, hp, _, hj, _, _, _, _, hpos, hch, hmsg, _, _⟩
  · simp at hm
  · rw [hparse] at hp
    simp only [Prod.mk.injEq, Option.some.injEq, and_true] at hp
    rw [← hp, hreq] at hc
    exact absurd hc (by decide)
  · rw [hparse] at hp
    simp only [Prod.mk.injEq, Option.some.injEq, and_true] at hp
    subst hp
    rw [hjson] at hj
    simp only [Prod.mk.injEq, and_true] at hj
    subst hj
    simp only [Option.some.injEq] at hmsg
    refine ⟨by rw [hmsg], ?_⟩
    exact (ComputeHashcash_own_counter_success fuel record r hpos hlt hch).1

/-! ## Single use on the set-of-keys cache -/

theorem listCache_step_keeps_absent (fuel : Nat) (cfg : Config) (json : Json) (env : Env)
    (st st' : List GoString) (msgStr clientInfo uid : GoString) (res : Option Message × Option Error)
    (habs : uid ∉ st)
    (hfresh : ∀ m, ParseMessage msgStr = (some m, none) → m.Header = RequestChallenge → env.uid ≠ uid)
    (h : processRequest fuel cfg listCache json env st msgStr clientInfo = some (Run.done (res, st'))) :
    uid ∉ st' := by
  obtain ⟨msg, err⟩ := res
  rcases processRequest_cases fuel cfg listCache json env st st' msgStr clientInfo msg err h with
    ⟨_, _, hst | ⟨m, hp, hc, hst⟩ | ⟨k, hst⟩⟩ | ⟨m, b, hp, hc, hadd, _⟩ |
    ⟨m, record, k, st1, r, _, _, _, _, _, hex, _, _, _, _, _, hst⟩
  · rw [hst]; exact habs
  · rw [hst]
    simp only [listCache, List.mem_cons, not_or]
    exact ⟨fun e => hfresh m hp hc e.symm, habs⟩
  · rw [hst]; exact habs
  · simp only [listCache, Prod.mk.injEq, and_true] at hadd
    rw [← hadd]
    simp only [List.mem_cons, not_or]
    exact ⟨fun e => hfresh m hp hc e.symm, habs⟩
  · rw [hst]
    simp only [listCache, Prod.mk.injEq] at hex
    rw [← hex.1]
    simp only [listCache, List.mem_filter, not_and]
    intro hmem
    exact absurd hmem habs

theorem serve_keeps_absent (cfg : Config) (json : Json) (uid : GoString) (later : List Request)
    (st st' : List GoString) (habs : uid ∉ st)
    (hfresh : ∀ r ∈ later, ∀ m, ParseMessage r.msgStr = (some m, none) →
      m.Header = RequestChallenge → r.env.uid ≠ uid)
    (h : serve cfg json st later = some st') : uid ∉ st' := by
  induction later generalizing st with
  | nil =>
    simp only [serve, Option.some.injEq] at h
    rw [← h]; exact habs
  | cons r rs ih =>
    simp only [serve] at h
    rcases hout : processRequest r.fuel cfg listCache json r.env st r.msgStr r.clientInfo with
      _ | (⟨res, st1⟩ | _)
    · simp [hout] at h
    · simp only [hout] at h
      have h1 := listCache_step_keeps_absent r.fuel cfg json r.env st st1 r.msgStr r.clientInfo uid res
        habs (hfresh r (by simp)) hout
      exact ih st1 h1 (fun r' hr' => hfresh r' (List.mem_cons_of_mem _ hr')) h
    · simp [hout] at h

theorem listCache_success_removes (fuel : Nat) (cfg : Config) (json : Json) (env : Env)
    (st st' : List GoString) (msgStr clientInfo uid : GoString) (m msg : Message)
    (record : HashcashData) (hparse : ParseMessage msgStr = (some m, none))
    (hreq : m.Header = RequestResource) (hjson : json.Unmarshal m.Payload = (record, none))
    (hdec : DecodeString record.Rand = some uid)
    (h : processRequest fuel cfg listCache json env st msgStr clientInfo =
      some (Run.done ((some msg, none), st'))) : uid ∉ st' := by
  rcases processRequest_cases fuel cfg listCache json env st st' msgStr clientInfo _ _ h with
    ⟨hm, _⟩ | ⟨m', b, hp, hc, _⟩ |
    ⟨m', record', k, st1, r, hp, _, hj, _, hd, _, _, _, _, _, _, hst⟩
  · simp at hm
  · rw [hparse] at hp
    simp only [Prod.mk.injEq, Option.some.injEq, and_true] at hp
    rw [← hp, hreq] at hc
    exact absurd hc (by decide)
  · rw [hparse] at hp
    simp only [Prod.mk.injEq, Option.some.injEq, and_true] at hp
    subst hp
    rw [hjson] at hj
    simp only [Prod.mk.injEq, and_true] at hj
    subst hj
    rw [hdec] at hd
    simp only [Option.some.injEq] at hd
    subst hd
    rw [hst]
    simp [listCache]

theorem listCache_absent_rejected (fuel : Nat) (cfg : Config) (json : Json) (env : Env)
    (st : List GoString) (msgStr clientInfo uid : GoString) (m : Message) (record : HashcashData)
    (habs : uid ∉ st) (hparse : ParseMessage msgStr = (some m, none))
    (hreq : m.Header = RequestResource) (hjson : json.Unmarshal m.Payload = (record, none))
    (hdec : DecodeString record.Rand = some uid) :
    processRequest fuel cfg listCache json env st msgStr clientInfo =
      some (Run.done ((none,
        some (if record.Resource = clientInfo then Error.ErrNotFoundChallenge
          else Error.ErrInvalidResource)), st)) := by
  by_cases hres : record.Resource = clientInfo
  · rw [processRequest_resource fuel cfg listCache json env st st msgStr clientInfo uid m record false
      hparse hreq hjson hres hdec (by simp [listCache, habs])]
    simp [hres]
  · rw [processRequest_wrong_resource fuel cfg listCache json env st msgStr clientInfo m record hparse
      hreq hjson hres]
    simp [hres]

/-! ## The claims -/

/-- C1 (amended). Codec round trip: for every message whose Header is a 64-bit `int` and whose
Payload holds no delimiter `|` and does not end with a white-space character,
`ParseMessage(m.Stringify())` succeeds and returns `m`. -/
theorem parse_stringify_roundtrip (m : Message) (hH : isInt64 m.Header) (hD : splitter ∉ m.Payload)
    (hS : endsWithSpace m.Payload = false) : ParseMessage m.Stringify = (some m, none) :=
  ParseMessage_Stringify m hH hD hS

/-- C1, witness: the message of the second test case. -/
theorem parse_stringify_roundtrip_witness :
    isInt64 2 ∧ splitter ∉ ascii "payload" ∧ endsWithSpace (ascii "payload") = false ∧
      ParseMessage (Message.Stringify ⟨2, ascii "payload"⟩) = (some ⟨2, ascii "payload"⟩, none) :=
  ⟨by decide, by decide, by decide,
    parse_stringify_roundtrip ⟨2, ascii "payload"⟩ (by decide) (by decide) (by decide)⟩

/-- C1, counterexample to the claim as stated: a payload without delimiter that ends with a
space comes back without the space, because `ParseMessage` trims its input. -/
theorem parse_stringify_trailing_space :
    isInt64 2 ∧ splitter ∉ ascii "payload " ∧
      ParseMessage (Message.Stringify ⟨2, ascii "payload "⟩) = (some ⟨2, ascii "payload"⟩, none) ∧
      ParseMessage (Message.Stringify ⟨2, ascii "payload "⟩) ≠ (some ⟨2, ascii "payload "⟩, none) := by
  decide

/-- C2. Decode error classification: for every input `s`, with `parts` the pieces of the trimmed
input between the delimiters (one more than the number of delimiters), `ParseMessage` returns
`ErrInvalidMessage` exactly when there are more than two parts, `ErrInvalidHeader` exactly when
there are one or two parts and `Atoi` rejects the first, never a message together with an error,
and otherwise the message whose Header is the parsed integer and whose Payload is the second part
(empty when there is none). The inputs `||`, the empty string and `some|` are classified as in
the tests. -/
theorem parse_error_classification (s : GoString) :
    (Split (TrimSpace s) splitter).length = (TrimSpace s).count splitter + 1 ∧
    ((ParseMessage s).2 = some Error.ErrInvalidMessage ↔ 2 < (Split (TrimSpace s) splitter).length) ∧
    ((ParseMessage s).2 = some Error.ErrInvalidHeader ↔
      ((Split (TrimSpace s) splitter).length = 1 ∨ (Split (TrimSpace s) splitter).length = 2) ∧
        Atoi ((Split (TrimSpace s) splitter).headD []) = none) ∧
    ((ParseMessage s).2 ≠ none → (ParseMessage s).1 = none) ∧
    ((ParseMessage s).2 ≠ some Error.ErrInvalidMessage → (ParseMessage s).2 ≠ some Error.ErrInvalidHeader →
      ∃ n, Atoi ((Split (TrimSpace s) splitter).headD []) = some n ∧
        ParseMessage s = (some ⟨n, (Split (TrimSpace s) splitter).getD 1 []⟩, none)) ∧
    ParseMessage (ascii "||") = (none, some Error.ErrInvalidMessage) ∧
    ParseMessage (ascii "") = (none, some Error.ErrInvalidHeader) ∧
    ParseMessage (ascii "some|") = (none, some Error.ErrInvalidHeader) := by
  have hlen := Split_length (TrimSpace s) splitter
  refine ⟨hlen, ?_, ?_, ?_, ?_, by decide, by decide, by decide⟩
  · rcases ParseMessage_cases s with ⟨h, hp⟩ | ⟨h, ha, hp⟩ | ⟨h, n, ha, hp⟩
    · rw [hp]; simp [h]
    · rw [hp]; simp; omega
    · rw [hp]; simp; omega
  · rcases ParseMessage_cases s with ⟨h, hp⟩ | ⟨h, ha, hp⟩ | ⟨h, n, ha, hp⟩
    · rw [hp]; simp; omega
    · rw [hp]
      refine ⟨fun _ => ⟨by omega, ha⟩, fun _ => rfl⟩
    · rw [hp, ha]; simp
  · rcases ParseMessage_cases s with ⟨h, hp⟩ | ⟨h, ha, hp⟩ | ⟨h, n, ha, hp⟩ <;> rw [hp] <;> simp
  · rcases ParseMessage_cases s with ⟨h, hp⟩ | ⟨h, ha, hp⟩ | ⟨h, n, ha, hp⟩
    · rw [hp]; simp
    · rw [hp]; simp
    · intro _ _
      exact ⟨n, ha, hp⟩

/-- C3. Canonical form: `h.Stringify()` is the seven fields decimal Version, decimal ZerosCount,
decimal Date, Resource, an empty field, Rand and decimal Counter, joined by `:` in that order; the
record of the test gives the string of the test. -/
theorem stringify_canonical_form (h : HashcashData) :
    h.Stringify = List.intercalate (ascii ":")
      [formatInt h.Version, formatInt h.ZerosCount, formatInt h.Date, h.Resource, ascii "", h.Rand,
        formatInt h.Counter] ∧
    HashcashData.Stringify ⟨1, 3, 1657527541, ascii "localhost",
        ascii "f672e568-dc45-409d-9d47-a6df76d5633b", 10855⟩ =
      ascii "1:3:1657527541:localhost::f672e568-dc45-409d-9d47-a6df76d5633b:10855" :=
  ⟨Stringify_intercalate h, by decide⟩

/-- C4. Difficulty predicate: for a non-negative `zerosCount`, `IsHashCorrect` returns a boolean,
and it returns true exactly when `zerosCount` is at most the length of the digest and each of its
first `zerosCount` bytes is the character `0`; it is true for `zerosCount = 0`, true at
`zerosCount = len(hash)` only for an all-zero digest, and false when `zerosCount` exceeds the
length. -/
theorem isHashCorrect_iff_leading_zeros (hash : GoString) (zerosCount : Int) (hz : 0 ≤ zerosCount) :
    (IsHashCorrect hash zerosCount = Run.done true ∨ IsHashCorrect hash zerosCount = Run.done false) ∧
    (IsHashCorrect hash zerosCount = Run.done true ↔
      zerosCount ≤ (hash.length : Int) ∧ ∀ i : Nat, (i : Int) < zerosCount → hash[i]? = some 48) ∧
    IsHashCorrect hash 0 = Run.done true ∧
    (IsHashCorrect hash (hash.length : Int) = Run.done true ↔ ∀ c ∈ hash, c = 48) ∧
    ((hash.length : Int) < zerosCount → IsHashCorrect hash zerosCount = Run.done false) := by
  refine ⟨?_, ?_, ?_, ?_, ?_⟩
  · rw [IsHashCorrect_of_nonneg hash zerosCount hz]
    cases (decide (zerosCount ≤ (hash.length : Int)) &&
      (hash.take zerosCount.toNat).all (fun c => decide (c.val = 48))) <;> simp
  · rw [IsHashCorrect_of_nonneg hash zerosCount hz]
    simp only [Run.done.injEq, Bool.and_eq_true, decide_eq_true_eq]
    constructor
    · rintro ⟨hle, hall⟩
      refine ⟨hle, fun i hi => ?_⟩
      exact (all_take_iff hash zerosCount.toNat (by omega)).1 hall i (by omega)
    · rintro ⟨hle, hall⟩
      refine ⟨hle, ?_⟩
      exact (all_take_iff hash zerosCount.toNat (by omega)).2 (fun i hi => hall i (by omega))
  · rw [IsHashCorrect_of_nonneg hash 0 (le_refl 0)]
    simp
  · rw [IsHashCorrect_of_nonneg hash _ (by omega)]
    simp only [Run.done.injEq, Bool.and_eq_true, decide_eq_true_eq, Int.toNat_ofNat, List.take_length,
      List.all_eq_true, le_refl, true_and]
    constructor
    · intro h c hc
      exact Fin.ext (h c hc)
    · intro h c hc
      rw [h c hc]
      rfl
  · intro h
    unfold IsHashCorrect
    rw [if_pos h]

/-- C4, witness: the digest of the tests with four leading zeros, at `zerosCount = 4`. -/
theorem isHashCorrect_iff_leading_zeros_witness :
    (0 : Int) ≤ 4 ∧
    IsHashCorrect (ascii "00005374cb044a3e5826136d6f8defbfc91c448d") 4 = Run.done true ∧
    ((4 : Int) ≤ ((ascii "00005374cb044a3e5826136d6f8defbfc91c448d").length : Int) ∧
      ∀ i : Nat, (i : Int) < 4 → (ascii "00005374cb044a3e5826136d6f8defbfc91c448d")[i]? = some 48) :=
  ⟨by decide, by decide,
    ((isHashCorrect_iff_leading_zeros (ascii "00005374cb044a3e5826136d6f8defbfc91c448d") 4
      (by decide)).2.1).1 (by decide)⟩

/-- C5. Solve soundness: for every record and every cap (positive, zero or negative), if
`ComputeHashcash` returns a record `r` with a nil error then `r.Verify()` is true, that is, the
first `r.ZerosCount` characters of the sha1 hex digest of `r.Stringify()` are `0`, and `r` agrees
with the input on Version, ZerosCount, Date, Resource and Rand. -/
theorem solve_soundness (fuel : Nat) (h : HashcashData) (maxIterations : Int) (r : HashcashData)
    (hret : h.ComputeHashcash fuel maxIterations = some (Run.done (r, none))) :
    r.Verify = Run.done true ∧
      (∀ i : Nat, (i : Int) < r.ZerosCount → (sha1Hash r.Stringify)[i]? = some 48) ∧
      r.Version = h.Version ∧ r.ZerosCount = h.ZerosCount ∧ r.Date = h.Date ∧
      r.Resource = h.Resource ∧ r.Rand = h.Rand :=
  have hs := ComputeHashcash_sound fuel h maxIterations r hret
  ⟨hs.1, ((Verify_true_iff r).1 hs.1).2.2, hs.2⟩

/-- C5, witness: the record of the tests, started three counters before its solution 10855 with
the cap of the tests. -/
theorem solve_soundness_witness :
    ({ solvedRecord with Counter := 10853 } : HashcashData).ComputeHashcash 3 1000000 =
      some (Run.done (solvedRecord, none)) ∧
    solvedRecord.Verify = Run.done true :=
  ⟨by decide,
    (solve_soundness 3 { solvedRecord with Counter := 10853 } 1000000 solvedRecord (by decide)).1⟩

/-- C6, the code at the failing input: with the cap and the starting counter both at the largest
`int`, the only counter in range does not verify, yet the call returns a nil error and the counter
`-9223372036854775808` instead of `ErrMaxIterations`; and for a record no counter can solve, the
call with that cap never returns, whatever the fuel. -/
theorem bounded_solve_wraps_at_max_cap :
    (0 : Int) < maxInt64 ∧ maxCounterRecord.Counter = maxInt64 ∧
    maxCounterRecord.Verify = Run.done false ∧
    maxCounterRecord.ComputeHashcash 2 maxInt64 =
      some (Run.done ({ maxCounterRecord with Counter := minInt64 }, none)) ∧
    ∀ fuel : Nat, unsolvableRecord.ComputeHashcash fuel maxInt64 = none :=
  ⟨by decide, by decide, by decide, by decide,
    fun fuel => ComputeHashcash_never_returns fuel unsolvableRecord (by decide) (by decide)⟩

/-- C7. Mint: `NewHashcash` returns the record with Version 1, the given ZerosCount, the clock
reading as Date, the given Resource, the standard base64 encoding of `uid` as Rand (decoding it
gives `uid` back) and Counter 0; the inputs of the test give the Rand of the test. -/
theorem newHashcash_mint (issuedAt zeroCount : Int) (clientInfo uid : GoString) :
    NewHashcash issuedAt zeroCount clientInfo uid =
      { Version := 1, ZerosCount := zeroCount, Date := issuedAt, Resource := clientInfo,
        Rand := EncodeToString uid, Counter := 0 } ∧
    DecodeString (NewHashcash issuedAt zeroCount clientInfo uid).Rand = some uid ∧
    NewHashcash 1657527541 3 (ascii "localhost") (ascii "f672e568-dc45-409d-9d47-a6df76d5633b") =
      { Version := 1, ZerosCount := 3, Date := 1657527541, Resource := ascii "localhost",
        Rand := ascii "ZjY3MmU1NjgtZGM0NS00MDlkLTlkNDctYTZkZjc2ZDU2MzNi", Counter := 0 } :=
  ⟨rfl, DecodeString_EncodeToString uid, by decide⟩

/-- C8. Resource binding: for every cache and store, every clock value and every request line
that parses to a `RequestResource` whose payload decodes to a record, if the record's Resource
differs from the peer's `clientInfo` then `processRequest` returns `ErrInvalidResource` and no
message and leaves the store as it was, whatever the cache does and whether or not the proof of
work is valid. -/
theorem redeem_rejects_foreign_resource {σ : Type} (fuel : Nat) (cfg : Config) (cache : Cache σ)
    (json : Json) (env : Env) (st : σ) (msgStr clientInfo : GoString) (m : Message)
    (record : HashcashData) (hparse : ParseMessage msgStr = (some m, none))
    (hreq : m.Header = RequestResource) (hjson : json.Unmarshal m.Payload = (record, none))
    (hres : record.Resource ≠ clientInfo) :
    processRequest fuel cfg cache json env st msgStr clientInfo =
      some (Run.done ((none, some Error.ErrInvalidResource), st)) :=
  processRequest_wrong_resource fuel cfg cache json env st msgStr clientInfo m record hparse hreq
    hjson hres

/-- C8, witness: the solved record of the tests, minted for `localhost`, redeemed by another
peer while its nonce is in the cache. -/
theorem redeem_rejects_foreign_resource_witness :
    solvedRecord.Verify = Run.done true ∧
    processRequest 1 testConfig listCache (jsonOf solvedPayload solvedRecord) ⟨1657527600, [], 0⟩
        [testUid] (resourceRequest solvedPayload) (ascii "10.0.0.7:40000") =
      some (Run.done ((none, some Error.ErrInvalidResource), [testUid])) :=
  ⟨by decide,
    redeem_rejects_foreign_resource 1 testConfig listCache (jsonOf solvedPayload solvedRecord)
      ⟨1657527600, [], 0⟩ [testUid] (resourceRequest solvedPayload) (ascii "10.0.0.7:40000")
      ⟨4, solvedPayload⟩ solvedRecord (by decide) (by decide) (by decide) (by decide)⟩

/-- C9, the code at the failing input: a solved record whose Date is the smallest 64-bit integer
is older than `now - Duration`, yet `now - Date` wraps to a negative number, the expiry check
passes and `processRequest` answers with a `ResponseResource`. -/
theorem expiry_check_overflows :
    staleRecord.Date < 1657527541 - testConfig.Duration ∧
    wrapInt64 (1657527541 - staleRecord.Date) = -9223372035197248267 ∧
    staleRecord.Verify = Run.done true ∧
    processRequest 1 testConfig listCache (jsonOf stalePayload staleRecord) ⟨1657527541, [], 0⟩
        [testUid] (resourceRequest stalePayload) (ascii "localhost") =
      some (Run.done
        ((some ⟨ResponseResource, ascii "Sniper here! Time for target practice."⟩, none), [])) := by
  decide

/-- C10, the code at the failing input: a submitted record with Counter at the largest `int`
does not verify, `ComputeHashcash` wraps the counter to the smallest `int` and searches on, finds a
solution there, and `processRequest` answers with a `ResponseResource` instead of
`ErrInvalidHashcash`; for a record no counter can solve the call never returns, whatever the
fuel. -/
theorem server_check_wraps_at_max_counter :
    0 < maxCounterRecord.Counter ∧
    maxCounterRecord.Verify = Run.done false ∧
    processRequest 2 testConfig listCache (jsonOf maxCounterPayload maxCounterRecord)
        ⟨1657528752, [], 0⟩ [testUid] (resourceRequest maxCounterPayload) (ascii "localhost") =
      some (Run.done
        ((some ⟨ResponseResource, ascii "Sniper here! Time for target practice."⟩, none), [])) ∧
    ∀ fuel : Nat,
      processRequest fuel testConfig listCache (jsonOf unsolvablePayload unsolvableRecord)
        ⟨1657528752, [], 0⟩ [testUid] (resourceRequest unsolvablePayload) (ascii "localhost") = none :=
  ⟨by decide, by decide, by decide,
    fun fuel => processRequest_never_returns fuel testConfig listCache
      (jsonOf unsolvablePayload unsolvableRecord) ⟨1657528752, [], 0⟩ [testUid] [testUid]
      (resourceRequest unsolvablePayload) (ascii "localhost") testUid ⟨4, unsolvablePayload⟩
      unsolvableRecord (by decide) (by decide) (by decide) (by decide) (by decide) (by decide)
      (by decide) (by decide) (by decide)⟩

/-- C11. Single use, on the cache that is a set of keys: if a `RequestResource` for a record
succeeds, the nonce decoded from its Rand is no longer in the store, it stays out of the store
through any later requests that do not issue it again, and every later `RequestResource` whose
Rand decodes to that nonce is rejected without a message, with `ErrNotFoundChallenge` when its
Resource matches the peer and `ErrInvalidResource` otherwise. -/
theorem redeemed_nonce_is_single_use (cfg : Config) (json : Json) (fuel : Nat) (env : Env)
    (st st1 st2 : List GoString) (msgStr clientInfo uid : GoString) (m msg : Message)
    (record : HashcashData) (later : List Request)
    (fuel2 : Nat) (env2 : Env) (msgStr2 clientInfo2 : GoString) (m2 : Message) (record2 : HashcashData)
    (hparse : ParseMessage msgStr = (some m, none)) (hreq : m.Header = RequestResource)
    (hjson : json.Unmarshal m.Payload = (record, none)) (hdec : DecodeString record.Rand = some uid)
    (hsucc : processRequest fuel cfg listCache json env st msgStr clientInfo =
      some (Run.done ((some msg, none), st1)))
    (hserve : serve cfg json st1 later = some st2)
    (hfresh : ∀ r ∈ later, ∀ m', ParseMessage r.msgStr = (some m', none) →
      m'.Header = RequestChallenge → r.env.uid ≠ uid)
    (hparse2 : ParseMessage msgStr2 = (some m2, none)) (hreq2 : m2.Header = RequestResource)
    (hjson2 : json.Unmarshal m2.Payload = (record2, none))
    (hdec2 : DecodeString record2.Rand = some uid) :
    uid ∉ st1 ∧ listCache.Exist st1 uid = (st1, (false, none)) ∧ uid ∉ st2 ∧
    processRequest fuel2 cfg listCache json env2 st2 msgStr2 clientInfo2 =
      some (Run.done ((none,
        some (if record2.Resource = clientInfo2 then Error.ErrNotFoundChallenge
          else Error.ErrInvalidResource)), st2)) := by
  have h1 := listCache_success_removes fuel cfg json env st st1 msgStr clientInfo uid m msg record
    hparse hreq hjson hdec hsucc
  have h2 := serve_keeps_absent cfg json uid later st1 st2 h1 hfresh hserve
  refine ⟨h1, by simp [listCache, h1], h2, ?_⟩
  exact listCache_absent_rejected fuel2 cfg json env2 st2 msgStr2 clientInfo2 uid m2 record2 h2
    hparse2 hreq2 hjson2 hdec2

/-- C11, witness: the solved record of the honest round is redeemed, another challenge is issued,
and the same request line sent again is rejected with `ErrNotFoundChallenge`. -/
theorem redeemed_nonce_is_single_use_witness :
    processRequest 1 testConfig listCache roundJson ⟨1657527800, [], 2⟩ [testUid]
        (resourceRequest roundSolvedPayload) (ascii "localhost") =
      some (Run.done ((some ⟨ResponseResource,
        ascii "There are some things you weren\x27t meant to see. Such as tomorrow."⟩, none), [])) ∧
    serve testConfig roundJson []
        [⟨0, ⟨1657527810, otherUid, 0⟩, challengeRequest, ascii "10.0.0.7:40000"⟩] = some [otherUid] ∧
    processRequest 0 testConfig listCache roundJson ⟨1657527810, otherUid, 0⟩ [] challengeRequest
        (ascii "10.0.0.7:40000") =
      some (Run.done ((some ⟨ResponseChallenge, otherIssuedPayload⟩, none), [otherUid])) ∧
    processRequest 1 testConfig listCache roundJson ⟨1657527820, [], 0⟩
        [otherUid]
        (resourceRequest roundSolvedPayload) (ascii "localhost") =
      some (Run.done ((none, some Error.ErrNotFoundChallenge),
        [otherUid])) :=
  ⟨by decide, by decide, by decide,
    (redeemed_nonce_is_single_use testConfig roundJson 1 ⟨1657527800, [], 2⟩ [testUid] []
      [otherUid] (resourceRequest roundSolvedPayload)
      (ascii "localhost") testUid ⟨4, roundSolvedPayload⟩
      ⟨ResponseResource, ascii "There are some things you weren\x27t meant to see. Such as tomorrow."⟩
      roundSolved
      [⟨0, ⟨1657527810, otherUid, 0⟩, challengeRequest,
        ascii "10.0.0.7:40000"⟩]
      1 ⟨1657527820, [], 0⟩ (resourceRequest roundSolvedPayload) (ascii "localhost")
      ⟨4, roundSolvedPayload⟩ roundSolved
      (by decide) (by decide) (by decide) (by decide) (by decide) (by decide)
      (by intro r hr m' _ _; rw [List.mem_singleton] at hr; subst hr; decide)
      (by decide) (by decide) (by decide) (by decide)).2.2.2⟩

/-- C12. Issue registers before handing out: on a `RequestChallenge`, `processRequest` calls
`Add` with the fresh uid as key and `cfg.Hashcash.Duration` as expiration; if `Add` fails the
result is an error and no message; if it succeeds the result is a `ResponseChallenge` whose
payload is the JSON of the record minted for the peer, and that record has Counter 0, Resource
`clientInfo`, ZerosCount `cfg.Hashcash.ZeroCount` and a Rand that base64-decodes to the key given
to `Add`; on the cache that is a set of keys that key exists after the call. -/
theorem issue_registers_nonce {σ : Type} (fuel : Nat) (cfg : Config) (cache : Cache σ) (json : Json)
    (env : Env) (st : σ) (msgStr clientInfo : GoString) (m : Message)
    (hparse : ParseMessage msgStr = (some m, none)) (hreq : m.Header = RequestChallenge) :
    (∀ st1 err, cache.Add st env.uid cfg.Duration = (st1, some err) →
      processRequest fuel cfg cache json env st msgStr clientInfo =
        some (Run.done ((none, some (Error.wrap "failed to add rand to cache" err)), st1))) ∧
    (∀ st1 b, cache.Add st env.uid cfg.Duration = (st1, none) →
      json.Marshal (NewHashcash env.now cfg.ZeroCount clientInfo env.uid) = (b, none) →
      processRequest fuel cfg cache json env st msgStr clientInfo =
        some (Run.done ((some { Header := ResponseChallenge, Payload := b }, none), st1))) ∧
    (NewHashcash env.now cfg.ZeroCount clientInfo env.uid).Counter = 0 ∧
    (NewHashcash env.now cfg.ZeroCount clientInfo env.uid).Resource = clientInfo ∧
    (NewHashcash env.now cfg.ZeroCount clientInfo env.uid).ZerosCount = cfg.ZeroCount ∧
    DecodeString (NewHashcash env.now cfg.ZeroCount clientInfo env.uid).Rand = some env.uid ∧
    (∀ keys : List GoString,
      (listCache.Exist (listCache.Add keys env.uid cfg.Duration).1 env.uid).2 = (true, none)) := by
  refine ⟨?_, ?_, rfl, rfl, rfl, DecodeString_EncodeToString env.uid, ?_⟩
  · intro st1 err hadd
    rw [processRequest_challenge fuel cfg cache json env st msgStr clientInfo m hparse hreq, hadd]
  · intro st1 b hadd hm
    rw [processRequest_challenge fuel cfg cache json env st msgStr clientInfo m hparse hreq, hadd]
    simp only [hm]
  · intro keys
    simp [listCache]

/-- C12, witness: the challenge of the honest round, issued on an empty store. -/
theorem issue_registers_nonce_witness :
    ParseMessage challengeRequest = (some ⟨2, []⟩, none) ∧
    processRequest 0 testConfig listCache roundJson ⟨1657527741, testUid, 0⟩ [] challengeRequest
        (ascii "localhost") =
      some (Run.done ((some ⟨ResponseChallenge, roundIssuedPayload⟩, none), [testUid])) :=
  ⟨by decide,
    (issue_registers_nonce 0 testConfig listCache roundJson ⟨1657527741, testUid, 0⟩ []
      challengeRequest (ascii "localhost") ⟨2, []⟩ (by decide) (by decide)).2.1 [testUid]
      roundIssuedPayload (by decide) (by decide)⟩

/-- C13 (amended). End-to-end acceptance of an honest round: if a challenge is issued for
`clientInfo`, the client solves the issued record with `ComputeHashcash` and the call returns a
record with a nil error and a Counter greater than 0, and the solved record is submitted from the
same `clientInfo` while the nonce is in the cache and at most `cfg.Hashcash.Duration` seconds
after issuance, then `processRequest` returns a `ResponseResource` whose payload is one of the
strings of `quotes`. -/
theorem honest_round_accepted {σ : Type} (fuel1 fuel2 fuel3 : Nat) (cfg : Config) (cache : Cache σ)
    (json : Json) (env1 env2 : Env) (st0 st1 st2 st3 : σ) (msg1 msg2 clientInfo b : GoString)
    (m2 : Message) (r : HashcashData) (cap : Int)
    (hissue : processRequest fuel1 cfg cache json env1 st0 msg1 clientInfo =
      some (Run.done ((some { Header := ResponseChallenge, Payload := b }, none), st1)))
    (hsolve : (NewHashcash env1.now cfg.ZeroCount clientInfo env1.uid).ComputeHashcash fuel2 cap =
      some (Run.done (r, none)))
    (hpos : 0 < r.Counter)
    (hparse : ParseMessage msg2 = (some m2, none)) (hreq : m2.Header = RequestResource)
    (hjson : json.Unmarshal m2.Payload = (r, none))
    (hcache : cache.Exist st2 env1.uid = (st3, (true, none)))
    (hafter : 0 ≤ env2.now - env1.now) (hwithin : env2.now - env1.now ≤ cfg.Duration)
    (hdur : cfg.Duration ≤ maxInt64) :
    json.Marshal (NewHashcash env1.now cfg.ZeroCount clientInfo env1.uid) = (b, none) ∧
    ∃ q, q ∈ quotes ∧
      processRequest (fuel3 + 1) cfg cache json env2 st2 msg2 clientInfo =
        some (Run.done ((some { Header := ResponseResource, Payload := q }, none),
          (cache.Delete st3 env1.uid).1)) := by
  constructor
  · rcases processRequest_cases fuel1 cfg cache json env1 st0 st1 msg1 clientInfo _ _ hissue with
      ⟨hm, _⟩ | ⟨m', b', _, _, _, hmar, hmsg, _⟩ |
      ⟨_, _, _, _, _, _, _, _, _, _, _, _, _, _, hmsg, _, _⟩
    · simp at hm
    · simp only [Option.some.injEq, Message.mk.injEq, true_and] at hmsg
      rw [hmsg]
      exact hmar
    · simp only [Option.some.injEq, Message.mk.injEq] at hmsg
      exact absurd hmsg.1 (by decide)
  · exact ⟨_, quotes_getD_mem env2.randQuote,
      processRequest_honest_redeem fuel3 cfg cache json env1 env2 st2 st3 msg2 clientInfo m2 r fuel2 cap
        hsolve hpos hparse hreq hjson hcache hafter hwithin hdur⟩

/-- C13, witness: difficulty 3 and resource `localhost`; the challenge issued at 1657527741 is
solved at Counter 3 and redeemed 59 seconds later. -/
theorem honest_round_accepted_witness :
    roundIssued.ComputeHashcash 4 1000000 = some (Run.done (roundSolved, none)) ∧
    ∃ q, q ∈ quotes ∧
      processRequest 1 testConfig listCache roundJson ⟨1657527800, [], 2⟩ [testUid]
          (resourceRequest roundSolvedPayload) (ascii "localhost") =
        some (Run.done ((some { Header := ResponseResource, Payload := q }, none),
          (listCache.Delete [testUid] testUid).1)) :=
  ⟨by decide,
    (honest_round_accepted 0 4 0 testConfig listCache roundJson ⟨1657527741, testUid, 0⟩
      ⟨1657527800, [], 2⟩ [] [testUid] [testUid] [testUid] challengeRequest
      (resourceRequest roundSolvedPayload) (ascii "localhost") roundIssuedPayload
      ⟨4, roundSolvedPayload⟩ roundSolved 1000000
      (by decide) (by decide) (by decide) (by decide) (by decide) (by decide) (by decide)
      (by decide) (by decide) (by decide)).2⟩

/-- C13, counterexample to the claim as stated: with difficulty 0 the issued record verifies at
Counter 0, the client's `ComputeHashcash` returns it unchanged with a nil error, and the server
rejects the submission with `ErrInvalidHashcash` because the Counter is not greater than 0. -/
theorem honest_round_rejected_at_counter_zero :
    processRequest 0 zeroConfig listCache (jsonOf zeroIssuedPayload zeroIssued)
        ⟨1657527541, testUid, 0⟩ [] challengeRequest (ascii "localhost") =
      some (Run.done ((some ⟨ResponseChallenge, zeroIssuedPayload⟩, none), [testUid])) ∧
    NewHashcash 1657527541 zeroConfig.ZeroCount (ascii "localhost") testUid = zeroIssued ∧
    zeroIssued.ComputeHashcash 1 1000000 = some (Run.done (zeroIssued, none)) ∧
    listCache.Exist [testUid] testUid = ([testUid], (true, none)) ∧
    (1657527542 : Int) - 1657527541 ≤ zeroConfig.Duration ∧
    processRequest 1 zeroConfig listCache (jsonOf zeroIssuedPayload zeroIssued)
        ⟨1657527542, [], 0⟩ [testUid] (resourceRequest zeroIssuedPayload) (ascii "localhost") =
      some (Run.done ((none, some Error.ErrInvalidHashcash), [testUid])) :=
  ⟨by decide, by decide, by decide, by decide, by decide, by decide⟩

/-- The shapes of what `processRequest` returns: for every request line, peer, cache, store,
clock and fuel, whenever the call returns, it returns either a nil error with a
`ResponseChallenge` or `ResponseResource` message (the latter carrying a string of `quotes`), or a
non-nil error with no message; what the connection loop writes to the peer is nothing or the line
of such a message, also when the call does not return. A framing error, `Quit` and an unknown
header return their error and no message for every fuel, and the call returns for every request
other than a `RequestResource` whose record has a negative ZerosCount or a Counter equal to the
largest `int`. -/
theorem processRequest_result_shapes {σ : Type} (fuel : Nat) (cfg : Config) (cache : Cache σ) (json : Json)
    (env : Env) (st : σ) (msgStr clientInfo : GoString) :
    (∀ msg err st', processRequest fuel cfg cache json env st msgStr clientInfo =
        some (Run.done ((msg, err), st')) →
      (err = none ∧ ∃ b, msg = some { Header := ResponseChallenge, Payload := b }) ∨
      (err = none ∧ ∃ q, q ∈ quotes ∧ msg = some { Header := ResponseResource, Payload := q }) ∨
      (err ≠ none ∧ msg = none)) ∧
    (written (processRequest fuel cfg cache json env st msgStr clientInfo) = none ∨
      ∃ m : Message, (m.Header = ResponseChallenge ∨ m.Header = ResponseResource) ∧
        written (processRequest fuel cfg cache json env st msgStr clientInfo) =
          some (m.Stringify ++ [10])) ∧
    (∀ pm e, ParseMessage msgStr = (pm, some e) →
      processRequest fuel cfg cache json env st msgStr clientInfo =
        some (Run.done ((none, some e), st))) ∧
    (∀ m, ParseMessage msgStr = (some m, none) → m.Header = Quit →
      processRequest fuel cfg cache json env st msgStr clientInfo =
        some (Run.done ((none, some Error.ErrQuit), st))) ∧
    (∀ m, ParseMessage msgStr = (some m, none) → m.Header ≠ Quit → m.Header ≠ RequestChallenge →
      m.Header ≠ RequestResource →
      processRequest fuel cfg cache json env st msgStr clientInfo =
        some (Run.done ((none, some (Error.errorf "unknown header")), st))) ∧
    ((∀ m record, ParseMessage msgStr = (some m, none) → m.Header = RequestResource →
        json.Unmarshal m.Payload = (record, none) →
        0 ≤ record.ZerosCount ∧ record.Counter < maxInt64) →
      ∃ res st', processRequest (fuel + 2) cfg cache json env st msgStr clientInfo =
        some (Run.done (res, st'))) := by
  refine ⟨?_, written_cases fuel cfg cache json env st msgStr clientInfo, ?_, ?_, ?_,
    processRequest_returns fuel cfg cache json env st msgStr clientInfo⟩
  · intro msg err st' h
    rcases processRequest_cases fuel cfg cache json env st st' msgStr clientInfo msg err h with
      ⟨hm, he, _⟩ | ⟨_, b, _, _, _, _, hm, he⟩ | ⟨_, _, _, _, _, _, _, _, _, _, _, _, _, _, hm, he, _⟩
    · exact Or.inr (Or.inr ⟨he, hm⟩)
    · exact Or.inl ⟨he, b, hm⟩
    · exact Or.inr (Or.inl ⟨he, _, quotes_getD_mem env.randQuote, hm⟩)
  · intro pm e hp
    exact processRequest_parse_error fuel cfg cache json env st msgStr clientInfo pm e hp
  · intro m hp hq
    exact processRequest_quit fuel cfg cache json env st msgStr clientInfo m hp hq
  · intro m hp h1 h2 h4
    exact processRequest_unknown fuel cfg cache json env st msgStr clientInfo m hp h1 h2 h4

/-- C14, the code at the failing inputs: for a `RequestResource` whose record declares
ZerosCount -1, `processRequest` panics for every positive fuel and is still running at fuel 0, so
it returns neither a message nor an error; for a record with ZerosCount 41 and Counter at the
largest `int` it never returns, whatever the fuel. In both cases nothing is written to the
peer. -/
theorem handler_does_not_return :
    (∀ fuel : Nat,
      processRequest (fuel + 1) testConfig listCache (jsonOf negativePayload negativeRecord)
        ⟨1657527600, [], 0⟩ [testUid] (resourceRequest negativePayload) (ascii "localhost") =
        some Run.panicked) ∧
    processRequest 0 testConfig listCache (jsonOf negativePayload negativeRecord)
        ⟨1657527600, [], 0⟩ [testUid] (resourceRequest negativePayload) (ascii "localhost") = none ∧
    (∀ fuel : Nat,
      processRequest fuel testConfig listCache (jsonOf unsolvablePayload unsolvableRecord)
        ⟨1657528752, [], 0⟩ [testUid] (resourceRequest unsolvablePayload) (ascii "localhost") = none) ∧
    (∀ fuel : Nat,
      written (processRequest fuel testConfig listCache (jsonOf negativePayload negativeRecord)
        ⟨1657527600, [], 0⟩ [testUid] (resourceRequest negativePayload) (ascii "localhost")) = none) :=
  have hpanic : ∀ fuel : Nat,
      processRequest (fuel + 1) testConfig listCache (jsonOf negativePayload negativeRecord)
        ⟨1657527600, [], 0⟩ [testUid] (resourceRequest negativePayload) (ascii "localhost") =
        some Run.panicked :=
    fun fuel => processRequest_panics fuel testConfig listCache (jsonOf negativePayload negativeRecord)
      ⟨1657527600, [], 0⟩ [testUid] [testUid] (resourceRequest negativePayload) (ascii "localhost")
      testUid ⟨4, negativePayload⟩ negativeRecord (by decide) (by decide) (by decide) (by decide)
      (by decide) (by decide) (by decide) (by decide) (by decide)
  ⟨hpanic, by decide,
    fun fuel => processRequest_never_returns fuel testConfig listCache
      (jsonOf unsolvablePayload unsolvableRecord) ⟨1657528752, [], 0⟩ [testUid] [testUid]
      (resourceRequest unsolvablePayload) (ascii "localhost") testUid ⟨4, unsolvablePayload⟩
      unsolvableRecord (by decide) (by decide) (by decide) (by decide) (by decide) (by decide)
      (by decide) (by decide) (by decide),
    fun fuel => by
      cases fuel with
      | zero => decide
      | succ f => rw [hpanic f]; rfl⟩

/-- C15, the code at the failing input: `IsHashCorrect` panics on every negative `zerosCount`
(here -1 on the digest of the tests), so `Verify` and `ComputeHashcash` panic on a record with
ZerosCount -1, and so does `processRequest` on a `RequestResource` that carries such a record. -/
theorem negative_zeros_count_panics :
    IsHashCorrect (ascii "00095374cb044a3e5826136d6f8defbfc91c448d") (-1) = Run.panicked ∧
    (∀ (hash : GoString) (zerosCount : Int), zerosCount < 0 →
      IsHashCorrect hash zerosCount = Run.panicked) ∧
    negativeRecord.Verify = Run.panicked ∧
    negativeRecord.ComputeHashcash 1 1 = some Run.panicked ∧
    processRequest 1 testConfig listCache (jsonOf negativePayload negativeRecord)
        ⟨1657527600, [], 0⟩ [testUid] (resourceRequest negativePayload) (ascii "localhost") =
      some Run.panicked :=
  ⟨by decide, IsHashCorrect_of_neg, by decide, by decide, by decide⟩

/-- C16 (amended). Acceptance implies the difficulty declared in the submitted record was met:
whenever `processRequest` answers a `RequestResource` whose record has a Counter below the largest
`int` with a message, the message is a `ResponseResource`, the record as submitted verifies, that
is, its ZerosCount is between 0 and 40 and the sha1 hex digest of its canonical form begins with
that many `0` characters; `cfg.Hashcash.ZeroCount` does not enter the answer to a
`RequestResource`. -/
theorem acceptance_meets_declared_difficulty {σ : Type} (fuel : Nat) (cfg : Config) (cache : Cache σ)
    (json : Json) (env : Env) (st st' : σ) (msgStr clientInfo : GoString) (m msg : Message)
    (record : HashcashData) (hparse : ParseMessage msgStr = (some m, none))
    (hreq : m.Header = RequestResource) (hjson : json.Unmarshal m.Payload = (record, none))
    (hlt : record.Counter < maxInt64)
    (hacc : processRequest fuel cfg cache json env st msgStr clientInfo =
      some (Run.done ((some msg, none), st'))) :
    msg.Header = ResponseResource ∧ record.Verify = Run.done true ∧
    0 ≤ record.ZerosCount ∧ record.ZerosCount ≤ 40 ∧
    (∀ i : Nat, (i : Int) < record.ZerosCount → (sha1Hash record.Stringify)[i]? = some 48) ∧
    (∀ z : Int, processRequest fuel { cfg with ZeroCount := z } cache json env st msgStr clientInfo =
      processRequest fuel cfg cache json env st msgStr clientInfo) := by
  obtain ⟨h1, h2⟩ := processRequest_accept_verifies fuel cfg cache json env st st' msgStr clientInfo
    m msg record hparse hreq hjson hlt hacc
  obtain ⟨h3, h4, h5⟩ := (Verify_true_iff record).1 h2
  exact ⟨h1, h2, h3, h4, h5, fun z =>
    processRequest_ignores_ZeroCount fuel cfg cache json env st msgStr clientInfo m z hparse hreq⟩

/-- C16, witness: the solved record of the tests is accepted and its digest begins with three
zeros. -/
theorem acceptance_meets_declared_difficulty_witness :
    processRequest 1 testConfig listCache (jsonOf solvedPayload solvedRecord) ⟨1657527600, [], 0⟩
        [testUid] (resourceRequest solvedPayload) (ascii "localhost") =
      some (Run.done
        ((some ⟨ResponseResource, ascii "Sniper here! Time for target practice."⟩, none), [])) ∧
    ∀ i : Nat, (i : Int) < solvedRecord.ZerosCount → (sha1Hash solvedRecord.Stringify)[i]? = some 48 :=
  ⟨by decide,
    (acceptance_meets_declared_difficulty 1 testConfig listCache (jsonOf solvedPayload solvedRecord)
      ⟨1657527600, [], 0⟩ [testUid] [] (resourceRequest solvedPayload) (ascii "localhost")
      ⟨4, solvedPayload⟩ ⟨ResponseResource, ascii "Sniper here! Time for target practice."⟩
      solvedRecord (by decide) (by decide) (by decide) (by decide) (by decide)).2.2.2.2.1⟩

/-- C16, counterexample to the claim as stated: the server is configured for three zeros, the
submitted record declares ZerosCount 0 with Counter 1, its digest begins with `b`, and
`processRequest` answers with a `ResponseResource`. -/
theorem accepted_below_configured_difficulty :
    testConfig.ZeroCount = 3 ∧
    sha1Hash easyRecord.Stringify = ascii "bed2700f69349f7866a7f3b05fb004b2c9b29c0d" ∧
    (sha1Hash easyRecord.Stringify)[0]? ≠ some 48 ∧
    processRequest 1 testConfig listCache (jsonOf easyPayload easyRecord) ⟨1657527600, [], 0⟩
        [testUid] (resourceRequest easyPayload) (ascii "localhost") =
      some (Run.done
        ((some ⟨ResponseResource, ascii "Sniper here! Time for target practice."⟩, none), [])) :=
  ⟨by decide, by decide, by decide, by decide⟩

end TcpPow
